import Mathlib

/-!
Verification development for the `rwlockfile` read/write lockfile protocol
(source: src/rwlockfile.ts).

The on-disk lock record, the per-handle counters and the protocol operations
(`check`, `tryLock`, `add`, `remove`, `unlock`, `writeFile`, `_fetchFile`,
the `_lock` retry loop) are embedded as pure Lean functions.  The file system
is modelled as `Option RWLockfileJSON` (the parsed record, or `none` when the
record file is absent); every read-modify-write sequence in the source runs
under the internal exclusive lockfile guard, so each operation is modelled as
one atomic step.  The process-liveness oracle `isActive` is a parameter
`alive : Nat → Bool`; its raw fallible form is `Option Bool` with failures
degrading to `false`, as in the source's try/catch wrapper.
-/

namespace Rwlockfile

/-- Lock type: the source's `RWLockType = 'read' | 'write'`. -/
inductive RWLockType where
| read
| write
deriving DecidableEq, Repr

/-- A lock claim, the source's `Job` interface: uuid of the owning handle,
owning process id, optional reason, creation time (`Date` modelled as
milliseconds). -/
structure Job where
uuid : String
pid : Nat
reason : Option String
created : Nat
deriving DecidableEq, Repr

/-- The parsed record file, the source's `RWLockfileJSON` interface. -/
structure RWLockfileJSON where
version : String
writer : Option Job
readers : List Job
deriving DecidableEq, Repr

/-- The package version string stamped into fresh records
(`require('../package.json').version`); opaque to the protocol. -/
def version : String := "package-version"

/-- Status of a lock request, the source's `Status` union.  The source tags
the variants with the strings `'open'`, `'write_lock'`, `'read_lock'`; each
carries the lock file path. -/
inductive Status where
| open_ (file : String)
| write_lock (job : Job) (file : String)
| read_lock (jobs : List Job) (file : String)
deriving DecidableEq, Repr

/-- The file system state for one lock path: `none` when the record file is
absent, `some f` when it holds the (parsed) record `f`. -/
def FileState : Type := Option RWLockfileJSON

instance : DecidableEq FileState := by
unfold FileState
infer_instance

/-- The per-handle state of one `RWLockfile` instance: its `uuid`, the pid of
its process (`process.pid`), the resolved lock file path (`this.file`), and
the reentrancy counters `_count.read` / `_count.write`. -/
structure HState where
uuid : String
pid : Nat
file : String
countRead : Nat
countWrite : Nat
deriving DecidableEq, Repr

/-- The source's `this.count[type]` / `this._count[type]` accessor. -/
def HState.count (h : HState) : RWLockType → Nat
| .read => h.countRead
| .write => h.countWrite

/-- Increment `_count[type]` (the source's `this._count[type]++`). -/
def HState.bump (h : HState) : RWLockType → HState
| .read => { h with countRead := h.countRead + 1 }
| .write => { h with countWrite := h.countWrite + 1 }

/-- Decrement `_count[type]` (the source's `this._count[type]--`). -/
def HState.dec (h : HState) : RWLockType → HState
| .read => { h with countRead := h.countRead - 1 }
| .write => { h with countWrite := h.countWrite - 1 }

/-- Set `_count[type] = 0` (the source's `this._count[type] = 0`). -/
def HState.zero (h : HState) : RWLockType → HState
| .read => { h with countRead := 0 }
| .write => { h with countWrite := 0 }

/-- The source's `_fetchFile`: read and parse the record file; a missing file
(ENOENT) yields the empty record `\x7bversion, readers: []\x7d`. -/
def _fetchFile (fs : FileState) : RWLockfileJSON :=
match fs with
| none => { version := version, writer := none, readers := [] }
| some f => f

/-- The source's `writeFile`: an empty record (no writer, no readers) deletes
the record file; otherwise the record is written out whole. -/
def writeFile (f : RWLockfileJSON) : FileState :=
if f.writer.isNone ∧ f.readers.isEmpty then none else some f

/-- The source's `_statusFromFile`: classify a request of `type` against the
fetched record `f`, honouring JS truthiness of the counters (a count is
truthy iff nonzero). -/
def _statusFromFile (h : HState) (type : RWLockType) (f : RWLockfileJSON) : Status :=
if type = .write ∧ h.countWrite ≠ 0 then .open_ h.file
else if type = .read ∧ h.countWrite ≠ 0 then .open_ h.file
else
  match f.writer with
  | some w => .write_lock w h.file
  | none =>
    if type = .write ∧ f.readers.length ≠ 0 then .read_lock f.readers h.file
    else .open_ h.file

/-- Size of a record: number of jobs it holds.  Termination measure for the
reaping recursion in `check`. -/
def recordSize (f : RWLockfileJSON) : Nat :=
(if f.writer.isSome then 1 else 0) + f.readers.length

theorem statusFromFile_write_lock {h : HState} {type : RWLockType} {f : RWLockfileJSON}
    {w : Job} {fl : String} (hs : _statusFromFile h type f = .write_lock w fl) :
    f.writer = some w := by
unfold _statusFromFile at hs
split at hs
· simp at hs
split at hs
· simp at hs
split at hs
· next w' heq =>
  simp only [Status.write_lock.injEq] at hs
  rw [heq, hs.1]
· next heq =>
  split at hs <;> simp at hs

theorem statusFromFile_read_lock {h : HState} {type : RWLockType} {f : RWLockfileJSON}
    {jobs : List Job} {fl : String} (hs : _statusFromFile h type f = .read_lock jobs fl) :
    f.writer = none ∧ jobs = f.readers := by
unfold _statusFromFile at hs
split at hs
· simp at hs
split at hs
· simp at hs
split at hs
· simp at hs
· next heq =>
  split at hs
  · simp only [Status.read_lock.injEq] at hs
    exact ⟨heq, hs.1.symm⟩
  · simp at hs

theorem recordSize_fetch_writeFile (f : RWLockfileJSON) :
    recordSize (_fetchFile (writeFile f)) = recordSize f := by
unfold writeFile
by_cases hvac : f.writer.isNone = true ∧ f.readers.isEmpty = true
· rw [if_pos hvac]
  obtain ⟨h1, h2⟩ := hvac
  simp [recordSize, _fetchFile, Option.isNone_iff_eq_none.mp h1, List.isEmpty_iff.mp h2]
· rw [if_neg hvac]
  rfl

theorem length_filter_lt_of_mem {α : Type _} {l : List α} {p : α → Bool} {x : α}
    (hx : x ∈ l) (hpx : p x = false) : (l.filter p).length < l.length := by
induction l with
| nil => cases hx
| cons a t ih =>
  rcases List.mem_cons.mp hx with rfl | hxt
  · rw [List.filter_cons_of_neg (by simp [hpx])]
    exact Nat.lt_succ_of_le (List.length_filter_le _ t)
  · by_cases hpa : p a = true
    · rw [List.filter_cons_of_pos hpa]
      exact Nat.succ_lt_succ (ih hxt)
    · rw [List.filter_cons_of_neg hpa]
      exact Nat.lt_succ_of_lt (ih hxt)

theorem readers_purge_decreases {h : HState} {type : RWLockType} {f : RWLockfileJSON}
    {jobs : List Job} {fl : String} (alive : Nat → Bool)
    (hs : _statusFromFile h type f = .read_lock jobs fl)
    (hin : (((jobs.filter fun j => !alive j.pid).map Job.pid).filter (· ≠ 0)).length ≠ 0) :
    recordSize { f with readers := f.readers.filter fun j =>
      !(((jobs.filter fun j => !alive j.pid).map Job.pid).filter (· ≠ 0)).contains j.pid } <
    recordSize f := by
obtain ⟨hw, hjobs⟩ := statusFromFile_read_lock hs
set inactive := ((jobs.filter fun j => !alive j.pid).map Job.pid).filter (· ≠ 0) with hdef
have hne : inactive ≠ [] := fun hn => hin (by rw [hn]; rfl)
obtain ⟨p0, hp0⟩ := List.exists_mem_of_ne_nil inactive hne
have hp0' := hp0
rw [hdef, List.mem_filter, List.mem_map] at hp0'
obtain ⟨⟨j0, hj0mem, hj0pid⟩, -⟩ := hp0'
rw [List.mem_filter] at hj0mem
obtain ⟨hj0r, -⟩ := hj0mem
have hlt : ((f.readers.filter fun j => !inactive.contains j.pid).length) < f.readers.length := by
  apply length_filter_lt_of_mem (x := j0)
  · rw [← hjobs]; exact hj0r
  · simp only [Bool.not_eq_false']
    rw [hj0pid]
    simpa using hp0
simp only [recordSize, hw, Option.isSome_none]
simpa using hlt

/-- The source's `check(type)`: fetch the record, classify it, and reap stale
holders.  A `write_lock` whose owner is not alive is purged, the record is
re-persisted and classification restarts; a `read_lock` purges (in one pass)
all readers whose pid is dead — a dead pid of `0` survives the purge because
the source filters the candidate pids by JS truthiness (`pids.filter(p => !!p)`).
When the surviving readers all carry the requesting handle's own uuid the
request is open.  Returns the status together with the (possibly re-persisted)
file state. -/
def check (h : HState) (alive : Nat → Bool) (fs : FileState) (type : RWLockType) :
    Status × FileState :=
let f := _fetchFile fs
match hst : _statusFromFile h type f with
| .open_ fl => (.open_ fl, fs)
| .write_lock job fl =>
  if alive job.pid then (.write_lock job fl, fs)
  else
    check h alive (writeFile { f with writer := none }) type
| .read_lock jobs fl =>
  let inactive := ((jobs.filter fun j => !alive j.pid).map Job.pid).filter (· ≠ 0)
  if hin : inactive.length ≠ 0 then
    check h alive (writeFile { f with readers := f.readers.filter fun j => !inactive.contains j.pid }) type
  else if jobs.all fun j => j.uuid = h.uuid then (.open_ h.file, fs)
  else (.read_lock jobs fl, fs)
termination_by recordSize (_fetchFile fs)
decreasing_by
· rw [recordSize_fetch_writeFile]
  have hw : (_fetchFile fs).writer = some job := statusFromFile_write_lock hst
  simp [recordSize, hw]
· rw [recordSize_fetch_writeFile]
  exact readers_purge_decreases alive hst hin

theorem statusFromFile_cw {h : HState} (type : RWLockType) (f : RWLockfileJSON)
    (hcw : h.countWrite ≠ 0) : _statusFromFile h type f = .open_ h.file := by
cases type <;> simp [_statusFromFile, hcw]

theorem cw_zero_of_write_lock {h : HState} {type : RWLockType} {f : RWLockfileJSON}
    {w : Job} {fl : String} (hs : _statusFromFile h type f = .write_lock w fl) :
    h.countWrite = 0 := by
by_cases hcw : h.countWrite = 0
· exact hcw
· rw [statusFromFile_cw type f hcw] at hs
  simp at hs

theorem cw_zero_of_read_lock {h : HState} {type : RWLockType} {f : RWLockfileJSON}
    {jobs : List Job} {fl : String} (hs : _statusFromFile h type f = .read_lock jobs fl) :
    h.countWrite = 0 := by
by_cases hcw : h.countWrite = 0
· exact hcw
· rw [statusFromFile_cw type f hcw] at hs
  simp at hs

theorem statusFromFile_writer {h : HState} (type : RWLockType) {f : RWLockfileJSON}
    {w : Job} (hcw : h.countWrite = 0) (hw : f.writer = some w) :
    _statusFromFile h type f = .write_lock w h.file := by
cases type <;> simp [_statusFromFile, hcw, hw]

theorem statusFromFile_read_open {h : HState} {f : RWLockfileJSON}
    (hcw : h.countWrite = 0) (hw : f.writer = none) :
    _statusFromFile h .read f = .open_ h.file := by
simp [_statusFromFile, hcw, hw]

theorem statusFromFile_write_readers {h : HState} {f : RWLockfileJSON}
    (hcw : h.countWrite = 0) (hw : f.writer = none) (hr : f.readers ≠ []) :
    _statusFromFile h .write f = .read_lock f.readers h.file := by
simp [_statusFromFile, hcw, hw, hr]

theorem statusFromFile_write_empty {h : HState} {f : RWLockfileJSON}
    (hcw : h.countWrite = 0) (hw : f.writer = none) (hr : f.readers = []) :
    _statusFromFile h .write f = .open_ h.file := by
simp [_statusFromFile, hcw, hw, hr]

theorem statusFromFile_open_inv {h : HState} {type : RWLockType} {f : RWLockfileJSON}
    {fl : String} (hs : _statusFromFile h type f = .open_ fl) :
    h.countWrite ≠ 0 ∨ (f.writer = none ∧ (type = .write → f.readers = [])) := by
by_cases hcw : h.countWrite = 0
· right
  rcases hfw : f.writer with _ | w
  · refine ⟨rfl, fun htype => ?_⟩
    subst htype
    by_cases hr : f.readers = []
    · exact hr
    · rw [statusFromFile_write_readers hcw hfw hr] at hs
      simp at hs
  · rw [statusFromFile_writer type hcw hfw] at hs
    simp at hs
· exact Or.inl hcw

/-- The writer slot survives a `writeFile` round-trip unchanged. -/
theorem fetch_writeFile_writer (g : RWLockfileJSON) :
    (_fetchFile (writeFile g)).writer = g.writer := by
unfold writeFile
by_cases hvac : g.writer.isNone = true ∧ g.readers.isEmpty = true
· rw [if_pos hvac]
  simp [_fetchFile, Option.isNone_iff_eq_none.mp hvac.1]
· rw [if_neg hvac]
  rfl

/-- The readers list survives a `writeFile` round-trip unchanged. -/
theorem fetch_writeFile_readers (g : RWLockfileJSON) :
    (_fetchFile (writeFile g)).readers = g.readers := by
unfold writeFile
by_cases hvac : g.writer.isNone = true ∧ g.readers.isEmpty = true
· rw [if_pos hvac]
  simp [_fetchFile, List.isEmpty_iff.mp hvac.2]
· rw [if_neg hvac]
  rfl

theorem check_of_status_open {h : HState} {alive : Nat → Bool} {fs : FileState}
    {type : RWLockType} {fl : String}
    (hs : _statusFromFile h type (_fetchFile fs) = .open_ fl) :
    check h alive fs type = (.open_ fl, fs) := by
rw [check.eq_def]
dsimp only
split
· next fl' heq =>
  rw [hs] at heq
  cases heq
  rfl
· next job fl' heq => rw [hs] at heq; simp at heq
· next jobs fl' heq => rw [hs] at heq; simp at heq

theorem check_of_write_lock_alive {h : HState} {alive : Nat → Bool} {fs : FileState}
    {type : RWLockType} {job : Job} {fl : String}
    (hs : _statusFromFile h type (_fetchFile fs) = .write_lock job fl)
    (ha : alive job.pid = true) :
    check h alive fs type = (.write_lock job fl, fs) := by
rw [check.eq_def]
dsimp only
split
· next fl' heq => rw [hs] at heq; simp at heq
· next job' fl' heq =>
  rw [hs] at heq
  simp only [Status.write_lock.injEq] at heq
  rw [heq.1, heq.2, if_pos (heq.1 ▸ ha)]
· next jobs fl' heq => rw [hs] at heq; simp at heq

theorem check_of_write_lock_dead {h : HState} {alive : Nat → Bool} {fs : FileState}
    {type : RWLockType} {job : Job} {fl : String}
    (hs : _statusFromFile h type (_fetchFile fs) = .write_lock job fl)
    (ha : alive job.pid = false) :
    check h alive fs type =
      check h alive (writeFile { _fetchFile fs with writer := none }) type := by
rw [check.eq_def]
dsimp only
split
· next fl' heq => rw [hs] at heq; simp at heq
· next job' fl' heq =>
  rw [hs] at heq
  simp only [Status.write_lock.injEq] at heq
  obtain ⟨rfl, rfl⟩ := heq
  rw [if_neg (by rw [ha]; simp)]
· next jobs fl' heq => rw [hs] at heq; simp at heq

/-- The dead-reader pids the source's one purge pass removes: the pids of
readers whose process is not alive, except a pid of `0`, which JS truthiness
drops from the candidate list. -/
abbrev inactivePids (alive : Nat → Bool) (jobs : List Job) : List Nat :=
((jobs.filter fun j => !alive j.pid).map Job.pid).filter (· ≠ 0)

theorem check_of_read_lock_purge {h : HState} {alive : Nat → Bool} {fs : FileState}
    {type : RWLockType} {jobs : List Job} {fl : String}
    (hs : _statusFromFile h type (_fetchFile fs) = .read_lock jobs fl)
    (hin : (inactivePids alive jobs).length ≠ 0) :
    check h alive fs type =
      check h alive (writeFile { version := (_fetchFile fs).version,
                                 writer := (_fetchFile fs).writer,
                                 readers := (_fetchFile fs).readers.filter
                                   (fun j => !(inactivePids alive jobs).contains j.pid) }) type := by
rw [check.eq_def]
dsimp only
split
· next fl' heq => rw [hs] at heq; simp at heq
· next job' fl' heq => rw [hs] at heq; simp at heq
· next jobs' fl' heq =>
  rw [hs] at heq
  simp only [Status.read_lock.injEq] at heq
  obtain ⟨rfl, rfl⟩ := heq
  rw [dif_pos hin]

theorem check_of_read_lock_allmine {h : HState} {alive : Nat → Bool} {fs : FileState}
    {type : RWLockType} {jobs : List Job} {fl : String}
    (hs : _statusFromFile h type (_fetchFile fs) = .read_lock jobs fl)
    (hin : (inactivePids alive jobs).length = 0)
    (hmine : ∀ j ∈ jobs, j.uuid = h.uuid) :
    check h alive fs type = (.open_ h.file, fs) := by
rw [check.eq_def]
dsimp only
split
· next fl' heq => rw [hs] at heq; simp at heq
· next job' fl' heq => rw [hs] at heq; simp at heq
· next jobs' fl' heq =>
  rw [hs] at heq
  simp only [Status.read_lock.injEq] at heq
  obtain ⟨rfl, rfl⟩ := heq
  rw [dif_neg (not_not_intro hin)]
  rw [if_pos (by simpa [List.all_eq_true] using hmine)]

theorem check_of_read_lock_blocked {h : HState} {alive : Nat → Bool} {fs : FileState}
    {type : RWLockType} {jobs : List Job} {fl : String}
    (hs : _statusFromFile h type (_fetchFile fs) = .read_lock jobs fl)
    (hin : (inactivePids alive jobs).length = 0)
    (hmine : ¬ ∀ j ∈ jobs, j.uuid = h.uuid) :
    check h alive fs type = (.read_lock jobs fl, fs) := by
rw [check.eq_def]
dsimp only
split
· next fl' heq => rw [hs] at heq; simp at heq
· next job' fl' heq => rw [hs] at heq; simp at heq
· next jobs' fl' heq =>
  rw [hs] at heq
  simp only [Status.read_lock.injEq] at heq
  obtain ⟨rfl, rfl⟩ := heq
  rw [dif_neg (not_not_intro hin)]
  rw [if_neg (by simpa [List.all_eq_true] using hmine)]

/-- Reaping in `check` only ever removes jobs: the final persisted writer is
the original one or gone, every surviving reader was already present, and a
writer whose process is alive is never touched. -/
theorem check_shrink (h : HState) (alive : Nat → Bool) (fs : FileState) (type : RWLockType) :
    ((_fetchFile (check h alive fs type).2).writer = (_fetchFile fs).writer ∨
      (_fetchFile (check h alive fs type).2).writer = none) ∧
    (∀ r ∈ (_fetchFile (check h alive fs type).2).readers, r ∈ (_fetchFile fs).readers) ∧
    (∀ w, (_fetchFile fs).writer = some w → alive w.pid = true →
      (_fetchFile (check h alive fs type).2).writer = some w) := by
induction fs, type using check.induct h alive with
| case1 fs type f fl hs =>
  rw [check_of_status_open hs]
  exact ⟨Or.inl rfl, fun r hr => hr, fun w hw _ => hw⟩
| case2 fs type f job fl hs ha =>
  rw [check_of_write_lock_alive hs ha]
  exact ⟨Or.inl rfl, fun r hr => hr, fun w hw _ => hw⟩
| case3 fs type f job fl hs ha ih =>
  have ha' : alive job.pid = false := by simpa using ha
  rw [check_of_write_lock_dead hs ha']
  obtain ⟨ih1, ih2, -⟩ := ih
  refine ⟨?_, ?_, ?_⟩
  · right
    rcases ih1 with h1 | h1
    · rw [h1, fetch_writeFile_writer]
    · exact h1
  · intro r hr
    have := ih2 r hr
    rwa [fetch_writeFile_readers] at this
  · intro w hw hal
    rw [statusFromFile_write_lock hs] at hw
    cases hw
    rw [hal] at ha'
    cases ha'
| case4 fs type f jobs fl hs inactive hin ih =>
  rw [check_of_read_lock_purge hs hin]
  obtain ⟨ih1, ih2, ih3⟩ := ih
  refine ⟨?_, ?_, ?_⟩
  · rcases ih1 with h1 | h1
    · left
      rw [h1, fetch_writeFile_writer]
    · exact Or.inr h1
  · intro r hr
    have := ih2 r hr
    rw [fetch_writeFile_readers] at this
    exact List.mem_of_mem_filter this
  · intro w hw hal
    apply ih3 w _ hal
    rw [fetch_writeFile_writer]
    exact hw
| case5 fs type f jobs fl hs inactive hin hall =>
  rw [check_of_read_lock_allmine hs (not_ne_iff.mp hin)
    (by simpa [List.all_eq_true] using hall)]
  exact ⟨Or.inl rfl, fun r hr => hr, fun w hw _ => hw⟩
| case6 fs type f jobs fl hs inactive hin hall =>
  rw [check_of_read_lock_blocked hs (not_ne_iff.mp hin)
    (by simpa [List.all_eq_true] using hall)]
  exact ⟨Or.inl rfl, fun r hr => hr, fun w hw _ => hw⟩

/-- Shape of an open verdict: `check` reports open either through the
self-ownership short-circuit (the handle holds write; the file is untouched)
or on a final record with no writer whose readers, for a write request, all
carry the requesting handle's uuid. -/
theorem check_open_shape {h : HState} {alive : Nat → Bool} (fs : FileState)
    (type : RWLockType) {fl : String}
    (hres : (check h alive fs type).1 = .open_ fl) :
    (h.countWrite ≠ 0 ∧ (check h alive fs type).2 = fs) ∨
    ((_fetchFile (check h alive fs type).2).writer = none ∧
      (type = .write → ∀ r ∈ (_fetchFile (check h alive fs type).2).readers,
        r.uuid = h.uuid)) := by
induction fs, type using check.induct h alive with
| case1 fs type f fl' hs =>
  rw [check_of_status_open hs] at hres ⊢
  rcases statusFromFile_open_inv hs with hcw | ⟨hw, hr⟩
  · exact Or.inl ⟨hcw, rfl⟩
  · right
    refine ⟨hw, fun htype r hr' => ?_⟩
    rw [hr htype] at hr'
    cases hr'
| case2 fs type f job fl' hs ha =>
  rw [check_of_write_lock_alive hs ha] at hres
  simp at hres
| case3 fs type f job fl' hs ha ih =>
  have ha' : alive job.pid = false := by simpa using ha
  rw [check_of_write_lock_dead hs ha'] at hres ⊢
  rcases ih hres with ⟨hcw, -⟩ | hr
  · exact absurd (cw_zero_of_write_lock hs) hcw
  · exact Or.inr hr
| case4 fs type f jobs fl' hs inactive hin ih =>
  rw [check_of_read_lock_purge hs hin] at hres ⊢
  rcases ih hres with ⟨hcw, -⟩ | hr
  · exact absurd (cw_zero_of_read_lock hs) hcw
  · exact Or.inr hr
| case5 fs type f jobs fl' hs inactive hin hall =>
  have hmine : ∀ j ∈ jobs, j.uuid = h.uuid := by simpa [List.all_eq_true] using hall
  rw [check_of_read_lock_allmine hs (not_ne_iff.mp hin) hmine] at hres ⊢
  obtain ⟨hw, hjobs⟩ := statusFromFile_read_lock hs
  right
  refine ⟨hw, fun _ r hr' => hmine r ?_⟩
  rw [hjobs]
  exact hr'
| case6 fs type f jobs fl' hs inactive hin hall =>
  have hmine : ¬ ∀ j ∈ jobs, j.uuid = h.uuid := by simpa [List.all_eq_true] using hall
  rw [check_of_read_lock_blocked hs (not_ne_iff.mp hin) hmine] at hres
  simp at hres

/-- The source's `addJob`: construct a fresh Job for this handle (its uuid,
its process pid, the optional reason, `created = now`) and install it: a read
job is pushed onto `readers`, a write job is stored as `writer`. -/
def addJob (h : HState) (type : RWLockType) (reason : Option String) (now : Nat)
    (f : RWLockfileJSON) : RWLockfileJSON :=
let job : Job := { reason := reason, pid := h.pid, created := now, uuid := h.uuid }
match type with
| .read => { f with readers := f.readers ++ [job] }
| .write => { f with writer := some job }

/-- The source's `tryLock(type, reason, inc)`: if the handle already holds
`type` it only bumps the counter (when `inc`); otherwise it `check`s, throws
the blocking status (`RWLockfileError`) on a non-open verdict, and on an open
verdict re-fetches the record, adds the job, persists, and bumps (when `inc`).
The returned `FileState` is the file after the call — also on failure, where
`check`'s reaping writes survive the throw. -/
def tryLock (h : HState) (alive : Nat → Bool) (fs : FileState) (type : RWLockType)
    (reason : Option String) (now : Nat) (inc : Bool) :
    Except Status HState × FileState :=
if h.count type ≠ 0 then (.ok (if inc then h.bump type else h), fs)
else
  match check h alive fs type with
  | (.open_ _, fs1) =>
    (.ok (if inc then h.bump type else h), writeFile (addJob h type reason now (_fetchFile fs1)))
  | (st, fs1) => (.error st, fs1)

/-- The source's `_removeJobFromFile`: drop every reader whose uuid is this
handle's (read), or clear the writer when it is this handle's (write). -/
def _removeJobFromFile (h : HState) (type : RWLockType) (f : RWLockfileJSON) :
    RWLockfileJSON :=
match type with
| .read => { f with readers := f.readers.filter (fun r => r.uuid ≠ h.uuid) }
| .write =>
  match f.writer with
  | some w => if w.uuid = h.uuid then { f with writer := none } else f
  | none => f

/-- The source's `_removeJob` / `_removeJobSync`: fetch, remove this handle's
job of the given type, persist. -/
def _removeJob (h : HState) (fs : FileState) (type : RWLockType) : FileState :=
writeFile (_removeJobFromFile h type (_fetchFile fs))

/-- The source's `unlock(type)` / `unlockSync(type)` for a present `type`:
a zero counter returns immediately (the record is not touched); otherwise the
handle's job is removed from the record and the counter is forced to 0. -/
def unlockT (h : HState) (fs : FileState) (type : RWLockType) : HState × FileState :=
if h.count type = 0 then (h, fs)
else (h.zero type, _removeJob h fs type)

/-- The source's `unlock()` with the type omitted: unlock read, then write. -/
def unlockAll (h : HState) (fs : FileState) : HState × FileState :=
let r := unlockT h fs .read
unlockT r.1 r.2 .write

/-- The source's `unlockSync()` with the type omitted: unlock write, then
read. -/
def unlockAllSync (h : HState) (fs : FileState) : HState × FileState :=
let r := unlockT h fs .write
unlockT r.1 r.2 .read

/-- The source's `remove(type)` / `removeSync(type)`: count 0 is a no-op,
count 1 releases via `unlock`, a larger count only decrements. -/
def remove (h : HState) (fs : FileState) (type : RWLockType) : HState × FileState :=
match h.count type with
| 0 => (h, fs)
| 1 => unlockT h fs type
| _ + 2 => (h.dec type, fs)

/-- The source's `add(type, opts)` restricted to its first `tryLock` attempt:
a nonzero counter skips `_lock` entirely and bumps; a zero counter runs
`tryLock` (with `inc = false`, as `_lock` does) and bumps on success.  The
retry behaviour of `_lock` around further attempts is modelled separately by
`_lockLoop`. -/
def add (h : HState) (alive : Nat → Bool) (fs : FileState) (type : RWLockType)
    (reason : Option String) (now : Nat) : Except Status (HState × FileState) :=
if h.count type = 0 then
  match tryLock h alive fs type reason now false with
  | (.ok h1, fs1) => .ok (h1.bump type, fs1)
  | (.error st, _) => .error st
else .ok (h.bump type, fs)

/-- Outcome of one run of the `_lock` acquisition loop: whether it acquired,
the thrown status on failure, how many `tryLock` attempts failed, how often
and at which failed attempt the caller's blocked hook actually ran, and the
list of slept intervals. -/
structure LockOutcome where
ok : Bool
err : Option Status
failures : Nat
hookCount : Nat
hookAt : Option Nat
sleeps : List Int
deriving DecidableEq, Repr

/-- The source's `random(min, max) = Math.floor(Math.random() * (max - min) + min)`;
`rand` is the `Math.random()` draw in `[0, 1)`. -/
def jsRandom (min max rand : ℚ) : Int := ⌊rand * (max - min) + min⌋

/-- The source's `_lock` retry loop.  `attempt n` is the outcome of the n-th
`tryLock` attempt (`none` = acquired, `some st` = failed with status `st`),
`rand n` the `Math.random()` draw used for the n-th backoff sleep.  On a
failure the once-wrapped `ifLocked` hook runs (only if it never ran before),
then a strictly negative remaining `timeout` rethrows; otherwise the loop
sleeps `random(retryInterval / 2, retryInterval * 2)`, deducts the slept
interval from `timeout`, doubles `retryInterval` and retries.  `fuel` bounds
the unrolling; `none` means the loop was still running after `fuel` steps. -/
def _lockLoop (attempt : Nat → Option Status) (rand : Nat → ℚ) :
    Nat → Nat → ℚ → ℚ → Bool → Nat → Option Nat → List Int → Option LockOutcome
| 0, _, _, _, _, _, _, _ => none
| fuel + 1, n, timeout, retryInterval, hookRan, hookCount, hookAt, sleeps =>
  match attempt n with
  | none => some { ok := true, err := none, failures := n, hookCount := hookCount,
                   hookAt := hookAt, sleeps := sleeps }
  | some st =>
    let hookCount' := if hookRan then hookCount else hookCount + 1
    let hookAt' := if hookRan then hookAt else some n
    if timeout < 0 then
      some { ok := false, err := some st, failures := n + 1, hookCount := hookCount',
             hookAt := hookAt', sleeps := sleeps }
    else
      let interval := jsRandom (retryInterval / 2) (retryInterval * 2) (rand n)
      _lockLoop attempt rand fuel (n + 1) (timeout - interval) (retryInterval * 2) true
        hookCount' hookAt' (sleeps ++ [interval])

/-- JS `x || d` for a numeric option: an absent or zero (falsy) value falls
back to the default. -/
def jsOrNum (x : Option ℚ) (d : ℚ) : ℚ :=
match x with
| none => d
| some v => if v = 0 then d else v

/-- The constructor's `this.timeout = options.timeout || 30000`. -/
def ctorTimeout (o : Option ℚ) : ℚ := jsOrNum o 30000

/-- The constructor's `this.retryInterval = options.retryInterval || 10`. -/
def ctorRetryInterval (o : Option ℚ) : ℚ := jsOrNum o 10

/-- The merge in `_lock`: `opts.timeout = opts.timeout || this.timeout`. -/
def _lockTimeout (optTimeout : Option ℚ) (hTimeout : ℚ) : ℚ := jsOrNum optTimeout hTimeout

/-- The merge in `_lock`: `opts.retryInterval = opts.retryInterval || this.retryInterval`. -/
def _lockRetryInterval (optR : Option ℚ) (hR : ℚ) : ℚ := jsOrNum optR hR

/-- The source's `_lock(type, opts)` loop entry: option merging (constructor
options against the built-in defaults, then per-call options against the
handle's values) followed by the retry loop from a fresh once-wrapper. -/
def _lock (ctorT ctorR callT callR : Option ℚ) (attempt : Nat → Option Status)
    (rand : Nat → ℚ) (fuel : Nat) : Option LockOutcome :=
_lockLoop attempt rand fuel 0 (_lockTimeout callT (ctorTimeout ctorT))
  (_lockRetryInterval callR (ctorRetryInterval ctorR)) false 0 none []

theorem HState.bump_uuid (h : HState) (t : RWLockType) : (h.bump t).uuid = h.uuid := by
cases t <;> rfl

theorem HState.bump_pid (h : HState) (t : RWLockType) : (h.bump t).pid = h.pid := by
cases t <;> rfl

theorem HState.zero_uuid (h : HState) (t : RWLockType) : (h.zero t).uuid = h.uuid := by
cases t <;> rfl

theorem HState.zero_pid (h : HState) (t : RWLockType) : (h.zero t).pid = h.pid := by
cases t <;> rfl

theorem HState.dec_uuid (h : HState) (t : RWLockType) : (h.dec t).uuid = h.uuid := by
cases t <;> rfl

theorem HState.dec_pid (h : HState) (t : RWLockType) : (h.dec t).pid = h.pid := by
cases t <;> rfl

theorem HState.bump_cw_read (h : HState) : (h.bump .read).countWrite = h.countWrite := rfl

theorem HState.zero_cw_read (h : HState) : (h.zero .read).countWrite = h.countWrite := rfl

theorem HState.dec_cw_read (h : HState) : (h.dec .read).countWrite = h.countWrite := rfl

/-- One lock path's whole system: the record file, every handle of every
process that ever touched the path, and the set of process ids that have
died.  The liveness oracle of a state is membership outside `dead`. -/
structure Sys where
fs : FileState
handles : List HState
dead : List Nat

/-- The liveness oracle induced by a system state. -/
def Sys.aliveB (s : Sys) (p : Nat) : Bool := !(s.dead.contains p)

/-- One `tryLock` call by handle `i` (an out-of-range `i` is a no-op). -/
def applyTryLock (s : Sys) (i : Nat) (type : RWLockType) (reason : Option String)
    (now : Nat) (inc : Bool) : Sys :=
match s.handles[i]? with
| none => s
| some h =>
  match tryLock h s.aliveB s.fs type reason now inc with
  | (.ok h1, fs1) => { s with fs := fs1, handles := s.handles.set i h1 }
  | (.error _, fs1) => { s with fs := fs1 }

/-- One `check` call by handle `i`: only its reaping side effect matters. -/
def applyCheck (s : Sys) (i : Nat) (type : RWLockType) : Sys :=
match s.handles[i]? with
| none => s
| some h => { s with fs := (check h s.aliveB s.fs type).2 }

/-- One `remove` call by handle `i`. -/
def applyRemove (s : Sys) (i : Nat) (type : RWLockType) : Sys :=
match s.handles[i]? with
| none => s
| some h => { s with fs := (remove h s.fs type).2, handles := s.handles.set i (remove h s.fs type).1 }

/-- One `unlock(type)` call by handle `i`. -/
def applyUnlockT (s : Sys) (i : Nat) (type : RWLockType) : Sys :=
match s.handles[i]? with
| none => s
| some h => { s with fs := (unlockT h s.fs type).2, handles := s.handles.set i (unlockT h s.fs type).1 }

/-- One omitted-type `unlock()` call by handle `i`. -/
def applyUnlockAll (s : Sys) (i : Nat) : Sys :=
match s.handles[i]? with
| none => s
| some h => { s with fs := (unlockAll h s.fs).2, handles := s.handles.set i (unlockAll h s.fs).1 }

/-- Process `q` dies: it performs no further operations, and its jobs become
reapable. -/
def applyDie (s : Sys) (q : Nat) : Sys := { s with dead := q :: s.dead }

/-- Operations of the protocol, performed by any handle whose process is
still alive, interleaved with process deaths.  `add` is covered by the
`tryLock` step (`add` = `tryLock` with `inc = false` inside `_lock`, then the
counter bump; both flavours of `inc` are steps). -/
inductive Step : Sys → Sys → Prop where
| tryLock (s : Sys) (i : Nat) (type : RWLockType) (reason : Option String) (now : Nat)
    (inc : Bool) (h : HState) (hh : s.handles[i]? = some h)
    (halive : s.aliveB h.pid = true) : Step s (applyTryLock s i type reason now inc)
| check (s : Sys) (i : Nat) (type : RWLockType) (h : HState)
    (hh : s.handles[i]? = some h) (halive : s.aliveB h.pid = true) :
    Step s (applyCheck s i type)
| remove (s : Sys) (i : Nat) (type : RWLockType) (h : HState)
    (hh : s.handles[i]? = some h) (halive : s.aliveB h.pid = true) :
    Step s (applyRemove s i type)
| unlockT (s : Sys) (i : Nat) (type : RWLockType) (h : HState)
    (hh : s.handles[i]? = some h) (halive : s.aliveB h.pid = true) :
    Step s (applyUnlockT s i type)
| unlockAll (s : Sys) (i : Nat) (h : HState)
    (hh : s.handles[i]? = some h) (halive : s.aliveB h.pid = true) :
    Step s (applyUnlockAll s i)
| die (s : Sys) (q : Nat) : Step s (applyDie s q)

/-- Writer/reader mutual exclusion up to ownership: whenever the record holds
a writer job together with reader jobs, every reader carries the writer's own
uuid (they all belong to the one handle that holds the write lock). -/
def mutexRec (f : RWLockfileJSON) : Prop :=
∀ w, f.writer = some w → ∀ r ∈ f.readers, r.uuid = w.uuid

/-- Handles carry pairwise distinct uuids (each `RWLockfile` draws a fresh
v4 uuid at construction). -/
def listDistinctU (l : List HState) : Prop :=
∀ (a b : Fin l.length), a.1 ≠ b.1 → (l.get a).uuid ≠ (l.get b).uuid

/-- A live handle that counts itself a writer owns the persisted writer job. -/
def wOwn (s : Sys) : Prop :=
∀ (a : Fin s.handles.length), s.aliveB (s.handles.get a).pid = true →
  0 < (s.handles.get a).countWrite →
  ∃ w, (_fetchFile s.fs).writer = some w ∧ w.uuid = (s.handles.get a).uuid ∧
    w.pid = (s.handles.get a).pid

/-- The protocol invariant. -/
def Inv (s : Sys) : Prop :=
listDistinctU s.handles ∧ mutexRec (_fetchFile s.fs) ∧ wOwn s

theorem set_self_of_getElem {l : List HState} {i : Nat} {h : HState}
    (hh : l[i]? = some h) : l.set i h = l := by
obtain ⟨hi, hgi⟩ := List.getElem?_eq_some.mp hh
apply List.ext_getElem (by simp)
intro n h1 h2
by_cases hin : i = n
· subst hin
  rw [List.getElem_set, if_pos rfl]
  exact hgi.symm
· rw [List.getElem_set, if_neg hin]

theorem get_set_cases {l : List HState} {i : Nat} {h1 : HState}
    (a : Fin (l.set i h1).length) :
    ((l.set i h1).get a = h1 ∧ a.1 = i ∧ i < l.length) ∨
    (∃ (ha : a.1 < l.length), (l.set i h1).get a = l.get ⟨a.1, ha⟩ ∧ a.1 ≠ i) := by
have ha : a.1 < l.length := by simpa using a.2
by_cases hia : i = a.1
· left
  refine ⟨?_, hia.symm, by rw [hia]; exact ha⟩
  rw [List.get_eq_getElem, List.getElem_set, if_pos hia]
· right
  refine ⟨ha, ?_, fun hc => hia hc.symm⟩
  rw [List.get_eq_getElem, List.getElem_set, if_neg hia, List.get_eq_getElem]

theorem listDistinctU_set {l : List HState} {i : Nat} {h h1 : HState}
    (hh : l[i]? = some h) (hu : h1.uuid = h.uuid) (hd : listDistinctU l) :
    listDistinctU (l.set i h1) := by
obtain ⟨hi, hgi⟩ := List.getElem?_eq_some.mp hh
intro a b hab
rcases get_set_cases a with ⟨hga, hai, -⟩ | ⟨hla, hga, hai⟩ <;>
  rcases get_set_cases b with ⟨hgb, hbi, -⟩ | ⟨hlb, hgb, hbi⟩
· exact absurd (hai.trans hbi.symm) hab
· rw [hga, hgb, hu]
  have := hd ⟨i, hi⟩ ⟨b.1, hlb⟩ (by simpa [← hai] using hab)
  simp only [List.get_eq_getElem] at this ⊢
  rwa [hgi] at this
· rw [hga, hgb, hu]
  have := hd ⟨a.1, hla⟩ ⟨i, hi⟩ (by simpa [← hbi] using hab)
  simp only [List.get_eq_getElem] at this ⊢
  rwa [hgi] at this
· rw [hga, hgb]
  exact hd ⟨a.1, hla⟩ ⟨b.1, hlb⟩ hab

theorem removeJobFromFile_read (h : HState) (f : RWLockfileJSON) :
    (_removeJobFromFile h .read f).writer = f.writer ∧
    (∀ r ∈ (_removeJobFromFile h .read f).readers, r ∈ f.readers) := by
refine ⟨rfl, fun r hr => ?_⟩
exact List.mem_of_mem_filter hr

theorem removeJobFromFile_write (h : HState) (f : RWLockfileJSON) :
    ((_removeJobFromFile h .write f).writer = f.writer ∨
      (_removeJobFromFile h .write f).writer = none) ∧
    (_removeJobFromFile h .write f).readers = f.readers ∧
    (∀ w, f.writer = some w → w.uuid ≠ h.uuid →
      (_removeJobFromFile h .write f).writer = some w) := by
rcases hw : f.writer with _ | w
· simp only [_removeJobFromFile, hw]
  refine ⟨Or.inl trivial, trivial, fun w' hww _ => ?_⟩
  cases hww
· by_cases hu : w.uuid = h.uuid
  · simp only [_removeJobFromFile, hw, if_pos hu]
    refine ⟨Or.inr trivial, trivial, fun w' hww hwu => ?_⟩
    cases hww
    exact absurd hu hwu
  · simp only [_removeJobFromFile, hw, if_neg hu]
    exact ⟨Or.inl trivial, trivial, fun w' hww _ => hww⟩

theorem aliveB_applyDie {s : Sys} {q p : Nat} (hp : (applyDie s q).aliveB p = true) :
    s.aliveB p = true := by
simp only [applyDie, Sys.aliveB, List.contains_cons, Bool.not_eq_true] at hp ⊢
rcases hb : s.dead.contains p with _ | _
· rfl
· rw [hb, Bool.or_true] at hp
  cases hp

theorem Inv_applyDie {s : Sys} (q : Nat) (hInv : Inv s) : Inv (applyDie s q) := by
obtain ⟨hd, hm, hw⟩ := hInv
refine ⟨hd, hm, fun a ha hcw => hw a (aliveB_applyDie ha) hcw⟩

theorem Inv_applyCheck {s : Sys} (i : Nat) (type : RWLockType) (hInv : Inv s) :
    Inv (applyCheck s i type) := by
obtain ⟨hd, hm, hw⟩ := hInv
rcases hh : s.handles[i]? with _ | h
· simpa only [applyCheck, hh] using ⟨hd, hm, hw⟩
· simp only [applyCheck, hh]
  obtain ⟨sh1, sh2, sh3⟩ := check_shrink h s.aliveB s.fs type
  refine ⟨hd, ?_, ?_⟩
  · intro w hw' r hr'
    rcases sh1 with h1 | h1
    · exact hm w (h1 ▸ hw') r (sh2 r hr')
    · rw [h1] at hw'
      cases hw'
  · intro a ha hcw
    obtain ⟨w, hwr, hwu, hwp⟩ := hw a ha hcw
    refine ⟨w, sh3 w hwr ?_, hwu, hwp⟩
    rw [hwp]
    exact ha

theorem mutexRec_shrink {fsOld fs' : FileState}
    (hwr : ∀ w, (_fetchFile fs').writer = some w → (_fetchFile fsOld).writer = some w)
    (hrd : ∀ r ∈ (_fetchFile fs').readers, r ∈ (_fetchFile fsOld).readers)
    (hm : mutexRec (_fetchFile fsOld)) : mutexRec (_fetchFile fs') :=
fun w hw' r hr' => hm w (hwr w hw') r (hrd r hr')

theorem wOwn_update {s : Sys} {i : Nat} {h h1 : HState} {fs' : FileState}
    (hh : s.handles[i]? = some h)
    (hu : h1.uuid = h.uuid) (hp : h1.pid = h.pid)
    (hcw : h1.countWrite ≤ h.countWrite)
    (hwr : (_fetchFile fs').writer = (_fetchFile s.fs).writer)
    (hw : wOwn s) :
    wOwn { s with fs := fs', handles := s.handles.set i h1 } := by
obtain ⟨hi, hgi⟩ := List.getElem?_eq_some.mp hh
intro a ha hcw'
rcases get_set_cases a with ⟨hga, -, -⟩ | ⟨hla, hga, -⟩
· rw [hga] at ha hcw' ⊢
  rw [hu, hp]
  rw [hp] at ha
  obtain ⟨w, hwrec, hwu, hwp⟩ := hw ⟨i, hi⟩ (by rw [List.get_eq_getElem, hgi]; exact ha)
    (by rw [List.get_eq_getElem, hgi]; omega)
  rw [List.get_eq_getElem, hgi] at hwu hwp
  exact ⟨w, by rw [hwr]; exact hwrec, hwu, hwp⟩
· rw [hga] at ha hcw' ⊢
  obtain ⟨w, hwrec, hwu, hwp⟩ := hw ⟨a.1, hla⟩ ha hcw'
  exact ⟨w, by rw [hwr]; exact hwrec, hwu, hwp⟩

theorem removeJob_read_writer (h : HState) (fs : FileState) :
    (_fetchFile (_removeJob h fs .read)).writer = (_fetchFile fs).writer := by
unfold _removeJob
rw [fetch_writeFile_writer]
exact (removeJobFromFile_read h (_fetchFile fs)).1

theorem removeJob_read_readers (h : HState) (fs : FileState) :
    ∀ r ∈ (_fetchFile (_removeJob h fs .read)).readers, r ∈ (_fetchFile fs).readers := by
intro r hr
unfold _removeJob at hr
rw [fetch_writeFile_readers] at hr
exact (removeJobFromFile_read h (_fetchFile fs)).2 r hr

theorem Inv_applyUnlockT {s : Sys} (i : Nat) (t : RWLockType) (hInv : Inv s) :
    Inv (applyUnlockT s i t) := by
obtain ⟨hd, hm, hw⟩ := hInv
rcases hh : s.handles[i]? with _ | h
· simpa only [applyUnlockT, hh] using ⟨hd, hm, hw⟩
· obtain ⟨hi, hgi⟩ := List.getElem?_eq_some.mp hh
  by_cases hcnt : h.count t = 0
  · simp only [applyUnlockT, hh, unlockT, if_pos hcnt, set_self_of_getElem hh]
    exact ⟨hd, hm, hw⟩
  · simp only [applyUnlockT, hh, unlockT, if_neg hcnt]
    cases t with
    | read =>
      refine ⟨listDistinctU_set hh (HState.zero_uuid h .read) hd, ?_, ?_⟩
      · exact mutexRec_shrink
          (fun w hw' => by rwa [removeJob_read_writer] at hw')
          (removeJob_read_readers h s.fs) hm
      · exact wOwn_update hh (HState.zero_uuid h .read) (HState.zero_pid h .read)
          (le_of_eq (HState.zero_cw_read h)) (removeJob_read_writer h s.fs) hw
    | write =>
      obtain ⟨hrw, hrr, hrkeep⟩ := removeJobFromFile_write h (_fetchFile s.fs)
      have hwr' : (_fetchFile (_removeJob h s.fs .write)).writer =
          (_removeJobFromFile h .write (_fetchFile s.fs)).writer := by
        unfold _removeJob
        rw [fetch_writeFile_writer]
      have hrd' : (_fetchFile (_removeJob h s.fs .write)).readers =
          (_fetchFile s.fs).readers := by
        unfold _removeJob
        rw [fetch_writeFile_readers]
        exact hrr
      refine ⟨listDistinctU_set hh (HState.zero_uuid h .write) hd, ?_, ?_⟩
      · refine mutexRec_shrink (fun w hw' => ?_) (fun r hr => by rwa [hrd'] at hr) hm
        rw [hwr'] at hw'
        rcases hrw with h1 | h1
        · rwa [h1] at hw'
        · rw [h1] at hw'
          cases hw'
      · intro a ha hcw'
        rcases get_set_cases a with ⟨hga, -, -⟩ | ⟨hla, hga, hai⟩
        · rw [hga] at hcw'
          simp [HState.zero] at hcw'
        · rw [hga] at ha hcw' ⊢
          obtain ⟨w, hwrec, hwu, hwp⟩ := hw ⟨a.1, hla⟩ ha hcw'
          refine ⟨w, ?_, hwu, hwp⟩
          rw [hwr']
          apply hrkeep w hwrec
          rw [hwu]
          have hne := hd ⟨a.1, hla⟩ ⟨i, hi⟩ hai
          simp only [List.get_eq_getElem] at hne ⊢
          rwa [hgi] at hne

theorem Inv_applyRemove {s : Sys} (i : Nat) (t : RWLockType) (hInv : Inv s) :
    Inv (applyRemove s i t) := by
obtain ⟨hd, hm, hw⟩ := hInv
rcases hh : s.handles[i]? with _ | h
· simpa only [applyRemove, hh] using ⟨hd, hm, hw⟩
· match hcnt : h.count t with
  | 0 =>
    simp only [applyRemove, hh, remove, hcnt, set_self_of_getElem hh]
    exact ⟨hd, hm, hw⟩
  | 1 =>
    have hrest := Inv_applyUnlockT (s := s) i t ⟨hd, hm, hw⟩
    simp only [applyUnlockT, hh] at hrest
    simp only [applyRemove, hh, remove, hcnt]
    exact hrest
  | n + 2 =>
    simp only [applyRemove, hh, remove, hcnt]
    refine ⟨listDistinctU_set hh (HState.dec_uuid h t) hd, hm, ?_⟩
    refine wOwn_update hh (HState.dec_uuid h t) (HState.dec_pid h t) ?_ rfl hw
    cases t
    · exact le_of_eq (HState.dec_cw_read h)
    · exact Nat.sub_le _ _

theorem applyUnlockAll_eq (s : Sys) (i : Nat) :
    applyUnlockAll s i = applyUnlockT (applyUnlockT s i .read) i .write := by
rcases hh : s.handles[i]? with _ | h
· simp only [applyUnlockAll, applyUnlockT, hh]
· obtain ⟨hi, -⟩ := List.getElem?_eq_some.mp hh
  have hh2 : (s.handles.set i (unlockT h s.fs .read).1)[i]? =
      some (unlockT h s.fs .read).1 := by
    simp [List.getElem?_set_self, hi]
  simp only [applyUnlockAll, applyUnlockT, hh, hh2, unlockAll]
  simp [List.set_set]

theorem Inv_applyUnlockAll {s : Sys} (i : Nat) (hInv : Inv s) :
    Inv (applyUnlockAll s i) := by
rw [applyUnlockAll_eq]
exact Inv_applyUnlockT i .write (Inv_applyUnlockT i .read hInv)

theorem Inv_applyTryLock {s : Sys} {i : Nat} {type : RWLockType} {reason : Option String}
    {now : Nat} {inc : Bool} {h : HState}
    (hh : s.handles[i]? = some h) (halive : s.aliveB h.pid = true) (hInv : Inv s) :
    Inv (applyTryLock s i type reason now inc) := by
obtain ⟨hd, hm, hw⟩ := hInv
obtain ⟨hi, hgi⟩ := List.getElem?_eq_some.mp hh
have hgeti : s.handles.get ⟨i, hi⟩ = h := by rw [List.get_eq_getElem, hgi]
by_cases hcnt : h.count type = 0
case neg =>
  simp only [applyTryLock, hh, tryLock, if_pos hcnt]
  have hu1 : (if inc then h.bump type else h).uuid = h.uuid := by
    cases inc <;> simp [HState.bump_uuid]
  have hp1 : (if inc then h.bump type else h).pid = h.pid := by
    cases inc <;> simp [HState.bump_pid]
  refine ⟨listDistinctU_set hh hu1 hd, hm, ?_⟩
  intro a ha hcw'
  rcases get_set_cases a with ⟨hga, -, -⟩ | ⟨hla, hga, -⟩
  · rw [hga] at ha hcw' ⊢
    rw [hu1, hp1]
    rw [hp1] at ha
    have hcwpos : 0 < h.countWrite := by
      cases type
      · rw [show (if inc then h.bump .read else h).countWrite = h.countWrite from by
          cases inc <;> rfl] at hcw'
        exact hcw'
      · have : h.countWrite ≠ 0 := hcnt
        omega
    obtain ⟨w, hwrec, hwu, hwp⟩ := hw ⟨i, hi⟩ (by rw [hgeti]; exact ha) (by rw [hgeti]; exact hcwpos)
    rw [hgeti] at hwu hwp
    exact ⟨w, hwrec, hwu, hwp⟩
  · rw [hga] at ha hcw' ⊢
    exact hw ⟨a.1, hla⟩ ha hcw'
case pos =>
  simp only [applyTryLock, hh, tryLock, if_neg (not_not_intro hcnt)]
  rcases hc : check h s.aliveB s.fs type with ⟨st, fs1⟩
  have hshr := check_shrink h s.aliveB s.fs type
  rw [hc] at hshr
  cases st with
  | write_lock job fl =>
    simp only [hc]
    refine ⟨hd, ?_, ?_⟩
    · refine mutexRec_shrink (fun w hw' => ?_) hshr.2.1 hm
      rcases hshr.1 with h1 | h1
      · rwa [h1] at hw'
      · rw [h1] at hw'
        cases hw'
    · intro a ha hcw'
      obtain ⟨w, hwrec, hwu, hwp⟩ := hw a ha hcw'
      exact ⟨w, hshr.2.2 w hwrec (by rw [hwp]; exact ha), hwu, hwp⟩
  | read_lock jobs fl =>
    simp only [hc]
    refine ⟨hd, ?_, ?_⟩
    · refine mutexRec_shrink (fun w hw' => ?_) hshr.2.1 hm
      rcases hshr.1 with h1 | h1
      · rwa [h1] at hw'
      · rw [h1] at hw'
        cases hw'
    · intro a ha hcw'
      obtain ⟨w, hwrec, hwu, hwp⟩ := hw a ha hcw'
      exact ⟨w, hshr.2.2 w hwrec (by rw [hwp]; exact ha), hwu, hwp⟩
  | open_ fl =>
    simp only [hc]
    have hres : (check h s.aliveB s.fs type).1 = .open_ fl := by rw [hc]
    have hshape := check_open_shape s.fs type hres
    rw [hc] at hshape
    have hu1 : (if inc then h.bump type else h).uuid = h.uuid := by
      cases inc <;> simp [HState.bump_uuid]
    have hp1 : (if inc then h.bump type else h).pid = h.pid := by
      cases inc <;> simp [HState.bump_pid]
    cases type with
    | write =>
      have hcw0 : h.countWrite = 0 := hcnt
      rcases hshape with ⟨hne, -⟩ | ⟨hwr1, hrd1⟩
      · exact absurd hcw0 hne
      · have hrd1' : ∀ r ∈ (_fetchFile fs1).readers, r.uuid = h.uuid := hrd1 rfl
        refine ⟨listDistinctU_set hh hu1 hd, ?_, ?_⟩
        · intro w hw' r hr'
          rw [fetch_writeFile_writer] at hw'
          rw [fetch_writeFile_readers] at hr'
          cases hw'
          exact hrd1' r hr'
        · intro a ha hcw'
          rcases get_set_cases a with ⟨hga, -, -⟩ | ⟨hla, hga, -⟩
          · rw [hga]
            refine ⟨⟨h.uuid, h.pid, reason, now⟩,
              by rw [fetch_writeFile_writer]; rfl, by rw [hu1], by rw [hp1]⟩
          · rw [hga] at ha hcw'
            obtain ⟨w, hwrec, hwu, hwp⟩ := hw ⟨a.1, hla⟩ ha hcw'
            have hkeep := hshr.2.2 w hwrec (by rw [hwp]; exact ha)
            rw [hwr1] at hkeep
            cases hkeep
    | read =>
      rcases hshape with ⟨hcwne, hfs1⟩ | ⟨hwr1, -⟩
      · subst hfs1
        obtain ⟨wi, hwirec, hwiu, hwip⟩ := hw ⟨i, hi⟩ (by rw [hgeti]; exact halive)
          (by rw [hgeti]; omega)
        rw [hgeti] at hwiu hwip
        refine ⟨listDistinctU_set hh hu1 hd, ?_, ?_⟩
        · intro w hw' r hr'
          rw [fetch_writeFile_writer] at hw'
          rw [fetch_writeFile_readers] at hr'
          have hw'' : (_fetchFile s.fs).writer = some w := hw'
          rcases List.mem_append.mp hr' with hold | hnew
          · exact hm w hw'' r hold
          · rw [List.mem_singleton] at hnew
            subst hnew
            rw [hwirec] at hw''
            cases hw''
            rw [hwiu]
        · intro a ha hcw'
          rcases get_set_cases a with ⟨hga, -, -⟩ | ⟨hla, hga, -⟩
          · rw [hga] at ha hcw' ⊢
            rw [hu1, hp1]
            rw [hp1] at ha
            have hcwa : 0 < h.countWrite := by
              rw [show (if inc then h.bump .read else h).countWrite = h.countWrite from by
                cases inc <;> rfl] at hcw'
              exact hcw'
            refine ⟨wi, ?_, hwiu, hwip⟩
            rw [fetch_writeFile_writer]
            exact hwirec
          · rw [hga] at ha hcw' ⊢
            obtain ⟨w, hwrec, hwu, hwp⟩ := hw ⟨a.1, hla⟩ ha hcw'
            refine ⟨w, ?_, hwu, hwp⟩
            rw [fetch_writeFile_writer]
            exact hwrec
      · refine ⟨listDistinctU_set hh hu1 hd, ?_, ?_⟩
        · intro w hw' r hr'
          rw [fetch_writeFile_writer] at hw'
          have hw'' : (_fetchFile fs1).writer = some w := hw'
          rw [hwr1] at hw''
          cases hw''
        · intro a ha hcw'
          rcases get_set_cases a with ⟨hga, -, -⟩ | ⟨hla, hga, -⟩
          · rw [hga] at ha hcw'
            rw [hp1] at ha
            have hcwa : 0 < h.countWrite := by
              rw [show (if inc then h.bump .read else h).countWrite = h.countWrite from by
                cases inc <;> rfl] at hcw'
              exact hcw'
            obtain ⟨wi, hwirec, hwiu, hwip⟩ := hw ⟨i, hi⟩ (by rw [hgeti]; exact halive)
              (by rw [hgeti]; exact hcwa)
            rw [hgeti] at hwip
            have hkeep := hshr.2.2 wi hwirec (by rw [hwip]; exact halive)
            rw [hwr1] at hkeep
            cases hkeep
          · rw [hga] at ha hcw'
            obtain ⟨w, hwrec, hwu, hwp⟩ := hw ⟨a.1, hla⟩ ha hcw'
            have hkeep := hshr.2.2 w hwrec (by rw [hwp]; exact ha)
            rw [hwr1] at hkeep
            cases hkeep

/-- Every protocol step preserves the invariant. -/
theorem Inv_step {s s' : Sys} (hInv : Inv s) (hstep : Step s s') : Inv s' := by
cases hstep with
| tryLock i type reason now inc h hh halive => exact Inv_applyTryLock hh halive hInv
| check i type h hh halive => exact Inv_applyCheck i type hInv
| remove i type h hh halive => exact Inv_applyRemove i type hInv
| unlockT i type h hh halive => exact Inv_applyUnlockT i type hInv
| unlockAll i h hh halive => exact Inv_applyUnlockAll i hInv
| die q => exact Inv_applyDie q hInv

/-- The invariant holds in every state reachable from an invariant state. -/
theorem Inv_reachable {s0 s : Sys} (h0 : Inv s0)
    (hr : Relation.ReflTransGen Step s0 s) : Inv s := by
induction hr with
| refl => exact h0
| tail hs hstep ih => exact Inv_step ih hstep

/-- A single fresh handle (uuid "a", pid 1) over an absent record file. -/
def cexHandleA : HState :=
{ uuid := "a", pid := 1, file := "x.lock", countRead := 0, countWrite := 0 }

/-- Initial system: one handle, no record file, nobody dead. -/
def cexSys0 : Sys := { fs := none, handles := [cexHandleA], dead := [] }

/-- After the handle's `add('read')` (its successful `tryLock`). -/
def cexSys1 : Sys := applyTryLock cexSys0 0 .read none 0 true

/-- After the same handle's `add('write')`. -/
def cexSys2 : Sys := applyTryLock cexSys1 0 .write none 0 true

/-- The one job the handle writes (read claim and write claim coincide). -/
def cexJob : Job := { uuid := "a", pid := 1, reason := none, created := 0 }

def cexA1 : HState :=
{ uuid := "a", pid := 1, file := "x.lock", countRead := 1, countWrite := 0 }

def cexA2 : HState :=
{ uuid := "a", pid := 1, file := "x.lock", countRead := 1, countWrite := 1 }

def cexSys1lit : Sys :=
{ fs := some { version := version, writer := none, readers := [cexJob] },
  handles := [cexA1], dead := [] }

def cexSys2lit : Sys :=
{ fs := some { version := version, writer := some cexJob, readers := [cexJob] },
  handles := [cexA2], dead := [] }

theorem cexSys1_eq : cexSys1 = cexSys1lit := by
have hh : cexSys0.handles[0]? = some cexHandleA := rfl
have hst : _statusFromFile cexHandleA .read (_fetchFile cexSys0.fs) =
    .open_ cexHandleA.file := rfl
have hchk : check cexHandleA cexSys0.aliveB cexSys0.fs .read =
    (.open_ cexHandleA.file, cexSys0.fs) := check_of_status_open hst
have htl : tryLock cexHandleA cexSys0.aliveB cexSys0.fs .read none 0 true =
    (.ok (cexHandleA.bump .read),
      writeFile (addJob cexHandleA .read none 0 (_fetchFile cexSys0.fs))) := by
  rw [tryLock, if_neg (by decide)]
  simp only [hchk]
  rfl
show applyTryLock cexSys0 0 .read none 0 true = _
simp only [applyTryLock, hh, htl]
rfl

theorem cexSys2_eq : cexSys2 = cexSys2lit := by
have hh : cexSys1lit.handles[0]? = some cexA1 := rfl
have hst : _statusFromFile cexA1 .write (_fetchFile cexSys1lit.fs) =
    .read_lock [cexJob] cexA1.file := rfl
have hchk : check cexA1 cexSys1lit.aliveB cexSys1lit.fs .write =
    (.open_ cexA1.file, cexSys1lit.fs) :=
  check_of_read_lock_allmine hst rfl (by decide)
have htl : tryLock cexA1 cexSys1lit.aliveB cexSys1lit.fs .write none 0 true =
    (.ok (cexA1.bump .write),
      writeFile (addJob cexA1 .write none 0 (_fetchFile cexSys1lit.fs))) := by
  rw [tryLock, if_neg (by decide)]
  simp only [hchk]
  rfl
show applyTryLock cexSys1 0 .write none 0 true = _
rw [cexSys1_eq]
simp only [applyTryLock, hh, htl]
rfl

theorem cex_chain : Relation.ReflTransGen Step cexSys0 cexSys2 := by
have s1 : Step cexSys0 cexSys1 := Step.tryLock cexSys0 0 .read none 0 true cexHandleA rfl rfl
have s2 : Step cexSys1 cexSys2 :=
  Step.tryLock cexSys1 0 .write none 0 true cexA1 (by rw [cexSys1_eq]; rfl)
    (by rw [cexSys1_eq]; rfl)
exact Relation.ReflTransGen.tail (Relation.ReflTransGen.tail Relation.ReflTransGen.refl s1) s2

theorem cex_inv0 : Inv cexSys0 := by
refine ⟨?_, ?_, ?_⟩
· intro a b hab
  have ha : a.1 < 1 := a.2
  have hb : b.1 < 1 := b.2
  exact absurd (by omega) hab
· intro w hw
  exact Option.noConfusion hw
· intro a ha hcw
  rcases a with ⟨av, hv⟩
  have h1 : av < 1 := hv
  have h0 : av = 0 := by omega
  subst h0
  have hget : cexSys0.handles.get ⟨0, hv⟩ = cexHandleA := rfl
  rw [hget] at hcw
  exact absurd hcw (by decide)

/-- C1, as stated, is false: one handle that already holds the read lock is
granted the write lock (the all-readers-are-mine allowance in `check`), after
which the persisted record holds a writer job concurrently with a reader
job — reached by the legal operation sequence add('read'); add('write'). -/
theorem c1_counterexample :
    Relation.ReflTransGen Step cexSys0 cexSys2 ∧
    (_fetchFile cexSys2.fs).writer = some cexJob ∧
    (_fetchFile cexSys2.fs).readers = [cexJob] := by
refine ⟨cex_chain, ?_, ?_⟩
· rw [cexSys2_eq]
  rfl
· rw [cexSys2_eq]
  rfl

/-- C1 (amended): in every system reachable by add/tryLock/remove/unlock/check
steps from an invariant state, whenever the persisted record holds a writer
job, every reader job it holds carries the writer's own uuid — a writer is
never concurrent with a reader of a *different* handle; and the record's
single optional `writer` field structurally admits at most one writer job. -/
theorem c1_mutual_exclusion {s0 s : Sys} (h0 : Inv s0)
    (hr : Relation.ReflTransGen Step s0 s) :
    ∀ w, (_fetchFile s.fs).writer = some w →
      ∀ r ∈ (_fetchFile s.fs).readers, r.uuid = w.uuid :=
(Inv_reachable h0 hr).2.1

theorem c1_mutual_exclusion_witness :
    (_fetchFile cexSys2.fs).writer = some cexJob ∧
    cexJob ∈ (_fetchFile cexSys2.fs).readers ∧
    cexJob.uuid = cexJob.uuid := by
have hw : (_fetchFile cexSys2.fs).writer = some cexJob := by
  rw [cexSys2_eq]
  rfl
have hm : cexJob ∈ (_fetchFile cexSys2.fs).readers := by
  rw [cexSys2_eq]
  exact List.Mem.head _
exact ⟨hw, hm, c1_mutual_exclusion cex_inv0 cex_chain cexJob hw cexJob hm⟩

/-- A handle whose read counter is 0 while (anomalously) its read job is
still persisted. -/
def c2Handle : HState :=
{ uuid := "u", pid := 1, file := "f.lock", countRead := 0, countWrite := 0 }

/-- The same handle with two nested read holds. -/
def c2HandleHeld : HState :=
{ uuid := "u", pid := 1, file := "f.lock", countRead := 2, countWrite := 0 }

/-- A record containing a reader job with `c2Handle`'s uuid. -/
def c2Fs : FileState :=
some { version := version, writer := none,
       readers := [{ uuid := "u", pid := 1, reason := none, created := 0 }] }

/-- C2, as stated, is false: with `localCount.read = 0` while the record still
contains a job with the handle's uuid, `unlock('read')` returns without
touching the record (`if (!this.count[type]) return`), so the job is not
removed even though one exists. -/
theorem c2_counterexample :
    c2Handle.countRead = 0 ∧
    (∃ r ∈ (_fetchFile c2Fs).readers, r.uuid = c2Handle.uuid) ∧
    (unlockT c2Handle c2Fs .read).2 = c2Fs ∧
    (∃ r ∈ (_fetchFile (unlockT c2Handle c2Fs .read).2).readers,
      r.uuid = c2Handle.uuid) := by
refine ⟨rfl, ⟨{ uuid := "u", pid := 1, reason := none, created := 0 }, by decide, rfl⟩,
  rfl, ⟨{ uuid := "u", pid := 1, reason := none, created := 0 }, by decide, rfl⟩⟩

/-- C2 (amended): `unlock(type)` (and `unlockSync(type)`) always leaves
`localCount[type]` at 0; when the counter was nonzero it removes the handle's
job of that type from the record and re-persists; when the counter was
already 0 it returns without touching the record at all (under the protocol
no job of the handle exists then).  `unlock()` with the type omitted unlocks
both types (read then write; the sync variant write then read). -/
theorem c2_unlock_forces_zero (h : HState) (fs : FileState) (type : RWLockType) :
    ((unlockT h fs type).1.count type = 0) ∧
    (h.count type = 0 → unlockT h fs type = (h, fs)) ∧
    (h.count type ≠ 0 →
      (unlockT h fs type).1 = h.zero type ∧
      (unlockT h fs type).2 = _removeJob h fs type ∧
      (type = .read → ∀ r ∈ (_fetchFile (unlockT h fs type).2).readers, r.uuid ≠ h.uuid) ∧
      (type = .write → ∀ w, (_fetchFile (unlockT h fs type).2).writer = some w →
        w.uuid ≠ h.uuid)) ∧
    (unlockAll h fs = unlockT (unlockT h fs .read).1 (unlockT h fs .read).2 .write) ∧
    (unlockAllSync h fs = unlockT (unlockT h fs .write).1 (unlockT h fs .write).2 .read) := by
refine ⟨?_, ?_, ?_, rfl, rfl⟩
· by_cases hc : h.count type = 0
  · rw [unlockT, if_pos hc]
    exact hc
  · rw [unlockT, if_neg hc]
    cases type <;> rfl
· intro hc
  rw [unlockT, if_pos hc]
· intro hc
  rw [unlockT, if_neg hc]
  refine ⟨rfl, rfl, ?_, ?_⟩
  · intro htype r hr
    subst htype
    unfold _removeJob at hr
    rw [fetch_writeFile_readers] at hr
    simp only [_removeJobFromFile, List.mem_filter] at hr
    simpa using hr.2
  · intro htype w hww
    subst htype
    unfold _removeJob at hww
    rw [fetch_writeFile_writer] at hww
    obtain ⟨hrw, -, -⟩ := removeJobFromFile_write h (_fetchFile fs)
    intro hu
    rcases hfw : (_fetchFile fs).writer with _ | w0
    · simp only [_removeJobFromFile, hfw] at hww
      cases hww
    · simp only [_removeJobFromFile, hfw] at hww
      by_cases hu0 : w0.uuid = h.uuid
      · rw [if_pos hu0] at hww
        cases hww
      · rw [if_neg hu0] at hww
        rw [hfw] at hww
        cases hww
        exact hu0 hu

theorem c2_unlock_forces_zero_witness :
    (unlockT c2HandleHeld c2Fs .read).1.count .read = 0 ∧
    (∀ r ∈ (_fetchFile (unlockT c2HandleHeld c2Fs .read).2).readers,
      r.uuid ≠ c2HandleHeld.uuid) :=
⟨(c2_unlock_forces_zero c2HandleHeld c2Fs .read).1,
 ((c2_unlock_forces_zero c2HandleHeld c2Fs .read).2.2.1 (by decide)).2.2.1 rfl⟩

/-- C5: a handle whose own `localCount.write` is positive is granted both
`check('read')` and `check('write')` as Open, with the file state returned
untouched and the verdict independent of the record's content (the
self-ownership short-circuit in `_statusFromFile`). -/
theorem c5_self_ownership (h : HState) (alive : Nat → Bool) (fs : FileState)
    (hcw : h.countWrite ≠ 0) :
    check h alive fs .read = (.open_ h.file, fs) ∧
    check h alive fs .write = (.open_ h.file, fs) :=
⟨check_of_status_open (statusFromFile_cw .read _ hcw),
 check_of_status_open (statusFromFile_cw .write _ hcw)⟩

/-- A handle holding the write lock. -/
def c5Handle : HState :=
{ uuid := "w", pid := 2, file := "y.lock", countRead := 0, countWrite := 1 }

/-- A record with a foreign writer and a foreign reader — irrelevant to the
self-ownership short-circuit. -/
def c5Fs : FileState :=
some { version := version,
       writer := some { uuid := "z", pid := 9, reason := none, created := 0 },
       readers := [{ uuid := "q", pid := 5, reason := none, created := 0 }] }

theorem c5_self_ownership_witness :
    c5Handle.countWrite = 1 ∧
    check c5Handle (fun _ => false) c5Fs .read = (.open_ c5Handle.file, c5Fs) ∧
    check c5Handle (fun _ => false) c5Fs .write = (.open_ c5Handle.file, c5Fs) :=
⟨rfl, (c5_self_ownership c5Handle (fun _ => false) c5Fs (by decide)).1,
 (c5_self_ownership c5Handle (fun _ => false) c5Fs (by decide)).2⟩

/-- The one purge pass on readers removes exactly the dead ones, as long as
no reader has pid 0 (the JS-truthiness corner `pids.filter(p => !!p)`). -/
theorem contains_iff_mem_nat (l : List Nat) (x : Nat) : l.contains x = true ↔ x ∈ l := by
simp

theorem purgeFilter_eq_aliveFilter (alive : Nat → Bool) (readers : List Job)
    (hpid : ∀ r ∈ readers, r.pid ≠ 0) :
    (readers.filter fun j => !(inactivePids alive readers).contains j.pid) =
    (readers.filter fun j => alive j.pid) := by
apply List.filter_congr
intro j hj
cases haj : alive j.pid with
| false =>
  simp only [Bool.not_eq_false']
  apply (contains_iff_mem_nat _ _).mpr
  simp only [inactivePids, List.mem_filter, List.mem_map]
  exact ⟨⟨j, ⟨hj, by rw [haj]; rfl⟩, rfl⟩, by simpa using hpid j hj⟩
| true =>
  simp only [Bool.not_eq_true']
  cases hc : (inactivePids alive readers).contains j.pid with
  | false => rfl
  | true =>
    exfalso
    have hmem := (contains_iff_mem_nat _ _).mp hc
    simp only [inactivePids, List.mem_filter, List.mem_map] at hmem
    obtain ⟨⟨j0, hj0, hj0p⟩, -⟩ := hmem
    rw [hj0p] at hj0
    rw [haj] at hj0
    simpa using hj0.2

/-- With nonzero pids, the purge candidate list is empty iff no reader is
dead. -/
theorem inactivePids_eq_nil_iff (alive : Nat → Bool) (readers : List Job)
    (hpid : ∀ r ∈ readers, r.pid ≠ 0) :
    inactivePids alive readers = [] ↔ ∀ r ∈ readers, alive r.pid = true := by
constructor
· intro hnil r hr
  by_contra hdead
  rw [Bool.not_eq_true] at hdead
  have hmem : r.pid ∈ inactivePids alive readers := by
    simp only [inactivePids, List.mem_filter, List.mem_map]
    exact ⟨⟨r, ⟨hr, by rw [hdead]; rfl⟩, rfl⟩, by simpa using hpid r hr⟩
  rw [hnil] at hmem
  cases hmem
· intro hall
  simp only [inactivePids]
  rw [List.filter_eq_nil_iff]
  intro p hp
  rw [List.mem_map] at hp
  obtain ⟨j0, hj0, hj0p⟩ := hp
  rw [List.mem_filter] at hj0
  rw [hall j0 hj0.1] at hj0
  simpa using hj0.2

/-- Classification of `check('write')` on a purge-stable record: no writer,
every reader alive. -/
theorem check_write_classify_stable (h : HState) (alive : Nat → Bool) (fs : FileState)
    (hcw : h.countWrite = 0) (hwr : (_fetchFile fs).writer = none)
    (halive : ∀ r ∈ (_fetchFile fs).readers, alive r.pid = true) :
    ((∀ r ∈ (_fetchFile fs).readers, r.uuid = h.uuid) →
      (check h alive fs .write).1 = .open_ h.file) ∧
    ((¬ ∀ r ∈ (_fetchFile fs).readers, r.uuid = h.uuid) →
      (check h alive fs .write).1 = .read_lock (_fetchFile fs).readers h.file) := by
by_cases hrd : (_fetchFile fs).readers = []
· constructor
  · intro _hmine
    rw [check_of_status_open (statusFromFile_write_empty hcw hwr hrd)]
  · intro hcon
    rw [hrd] at hcon
    exact absurd (by simp) hcon
· have hst := statusFromFile_write_readers hcw hwr hrd
  have hdead : inactivePids alive (_fetchFile fs).readers = [] := by
    simp only [inactivePids]
    have hnil : (_fetchFile fs).readers.filter (fun j => !alive j.pid) = [] := by
      rw [List.filter_eq_nil_iff]
      intro j hj
      rw [halive j hj]
      simp
    rw [hnil]
    rfl
  constructor
  · intro hmine
    rw [check_of_read_lock_allmine hst (by rw [hdead]; rfl) hmine]
  · intro hmine
    rw [check_of_read_lock_blocked hst (by rw [hdead]; rfl) hmine]

/-- Classification of `check('write')` on a record with no writer: after the
dead-reader purge, the request is open exactly when every surviving reader is
the requesting handle's own, and otherwise blocks naming exactly the
survivors.  Requires every reader pid nonzero (true of every OS process id). -/
theorem check_write_classify (h : HState) (alive : Nat → Bool) (fs : FileState)
    (hcw : h.countWrite = 0) (hwr : (_fetchFile fs).writer = none)
    (hpid : ∀ r ∈ (_fetchFile fs).readers, r.pid ≠ 0) :
    ((∀ r ∈ (_fetchFile fs).readers.filter (fun r => alive r.pid), r.uuid = h.uuid) →
      (check h alive fs .write).1 = .open_ h.file) ∧
    ((¬ ∀ r ∈ (_fetchFile fs).readers.filter (fun r => alive r.pid), r.uuid = h.uuid) →
      (check h alive fs .write).1 =
        .read_lock ((_fetchFile fs).readers.filter (fun r => alive r.pid)) h.file) := by
by_cases hrd : (_fetchFile fs).readers = []
· rw [hrd]
  constructor
  · intro _hmine
    rw [check_of_status_open (statusFromFile_write_empty hcw hwr hrd)]
  · intro hcon
    exact absurd (by simp) hcon
· have hst : _statusFromFile h .write (_fetchFile fs) =
      .read_lock (_fetchFile fs).readers h.file :=
    statusFromFile_write_readers hcw hwr hrd
  by_cases hdead : inactivePids alive (_fetchFile fs).readers = []
  · have hall : ∀ r ∈ (_fetchFile fs).readers, alive r.pid = true :=
      (inactivePids_eq_nil_iff alive _ hpid).mp hdead
    have hS : (_fetchFile fs).readers.filter (fun r => alive r.pid) =
        (_fetchFile fs).readers := by
      rw [List.filter_eq_self]
      exact hall
    rw [hS]
    constructor
    · intro hmine
      rw [check_of_read_lock_allmine hst (by rw [hdead]; rfl) hmine]
    · intro hmine
      rw [check_of_read_lock_blocked hst (by rw [hdead]; rfl) hmine]
  · have hin : (inactivePids alive (_fetchFile fs).readers).length ≠ 0 := by
      intro hc
      exact hdead (List.length_eq_zero.mp hc)
    rw [check_of_read_lock_purge hst hin]
    set fs2 := writeFile { version := (_fetchFile fs).version,
                           writer := (_fetchFile fs).writer,
                           readers := (_fetchFile fs).readers.filter
                             (fun j => !(inactivePids alive (_fetchFile fs).readers).contains j.pid) }
      with hfs2
    have hrd2 : (_fetchFile fs2).readers =
        (_fetchFile fs).readers.filter (fun r => alive r.pid) := by
      rw [hfs2, fetch_writeFile_readers]
      exact purgeFilter_eq_aliveFilter alive _ hpid
    have hwr2 : (_fetchFile fs2).writer = none := by
      rw [hfs2, fetch_writeFile_writer]
      exact hwr
    have hpid2 : ∀ r ∈ (_fetchFile fs2).readers, r.pid ≠ 0 := by
      intro r hr
      rw [hrd2] at hr
      exact hpid r (List.mem_of_mem_filter hr)
    have halive2 : ∀ r ∈ (_fetchFile fs2).readers, alive r.pid = true := by
      intro r hr
      rw [hrd2] at hr
      exact (List.mem_filter.mp hr).2
    have hS2 : (_fetchFile fs2).readers.filter (fun r => alive r.pid) =
        (_fetchFile fs2).readers := by
      rw [List.filter_eq_self]
      exact halive2
    have hrec := check_write_classify_stable h alive fs2 hcw hwr2 halive2
    rw [hrd2] at hrec
    exact hrec

/-- The source's `isActive` wrapper: the raw oracle may fail (`none`); any
failure is caught and treated as "not alive". -/
def isActiveW (raw : Nat → Option Bool) (pid : Nat) : Bool := (raw pid).getD false

/-- C8: for a write request on a record with no writer (requesting handle not
holding write, reader pids nonzero as OS pids are), after purging dead
readers `check('write')` is Open when every surviving reader carries the
handle's own uuid, and otherwise `read_lock` naming exactly the survivors. -/
theorem c8_write_classification (h : HState) (alive : Nat → Bool) (fs : FileState)
    (hcw : h.countWrite = 0) (hwr : (_fetchFile fs).writer = none)
    (hpid : ∀ r ∈ (_fetchFile fs).readers, 0 < r.pid) :
    ((∀ r ∈ (_fetchFile fs).readers.filter (fun r => alive r.pid), r.uuid = h.uuid) →
      (check h alive fs .write).1 = .open_ h.file) ∧
    ((¬ ∀ r ∈ (_fetchFile fs).readers.filter (fun r => alive r.pid), r.uuid = h.uuid) →
      (check h alive fs .write).1 =
        .read_lock ((_fetchFile fs).readers.filter (fun r => alive r.pid)) h.file) :=
check_write_classify h alive fs hcw hwr
  (fun r hr => Nat.pos_iff_ne_zero.mp (hpid r hr))

/-- A handle requesting write while holding one read claim. -/
def c8Handle : HState :=
{ uuid := "m", pid := 3, file := "z.lock", countRead := 1, countWrite := 0 }

/-- Pids 3 and 5 are alive, everything else is dead. -/
def c8Alive : Nat → Bool := fun p => p == 3 || p == 5

def c8JobMine : Job := { uuid := "m", pid := 3, reason := none, created := 0 }

def c8JobDead : Job := { uuid := "d", pid := 4, reason := none, created := 0 }

def c8JobLive : Job := { uuid := "f", pid := 5, reason := none, created := 0 }

/-- Readers: the handle's own claim plus a dead foreign claim. -/
def c8Fs : FileState :=
some { version := version, writer := none, readers := [c8JobMine, c8JobDead] }

/-- Readers: the handle's own claim plus a live foreign claim. -/
def c8FsB : FileState :=
some { version := version, writer := none, readers := [c8JobMine, c8JobLive] }

theorem c8_write_classification_witness :
    (check c8Handle c8Alive c8Fs .write).1 = .open_ c8Handle.file ∧
    (check c8Handle c8Alive c8FsB .write).1 =
      .read_lock [c8JobMine, c8JobLive] c8Handle.file := by
constructor
· exact (c8_write_classification c8Handle c8Alive c8Fs rfl rfl (by decide)).1 (by decide)
· have hres := (c8_write_classification c8Handle c8Alive c8FsB rfl rfl (by decide)).2
    (by decide)
  rw [show (_fetchFile c8FsB).readers.filter (fun r => c8Alive r.pid) =
      [c8JobMine, c8JobLive] from rfl] at hres
  exact hres

/-- C3: a record whose writer's process is not alive (equally: whose liveness
query failed) is reclaimed by `check` from a different handle: the writer
entry is purged, the record re-persisted, classification restarts, and with
no other blockers (every reader either the handle's own or dead) the verdict
is Open; raw-oracle failures count as "not alive". -/
theorem c3_stale_writer_reclaim (h : HState) (raw : Nat → Option Bool) (fs : FileState)
    (type : RWLockType) (w : Job)
    (hcw : h.countWrite = 0)
    (hwr : (_fetchFile fs).writer = some w)
    (hdiff : h.uuid ≠ w.uuid)
    (hdead : isActiveW raw w.pid = false)
    (hpid : ∀ r ∈ (_fetchFile fs).readers, 0 < r.pid)
    (hblock : ∀ r ∈ (_fetchFile fs).readers, r.uuid = h.uuid ∨ isActiveW raw r.pid = false) :
    (check h (isActiveW raw) fs type).1 = .open_ h.file ∧
    (_fetchFile (check h (isActiveW raw) fs type).2).writer = none ∧
    (∀ p, raw p = none → isActiveW raw p = false) := by
have hst : _statusFromFile h type (_fetchFile fs) = .write_lock w h.file :=
  statusFromFile_writer type hcw hwr
rw [check_of_write_lock_dead hst hdead]
set fs' := writeFile { version := (_fetchFile fs).version, writer := none,
                       readers := (_fetchFile fs).readers }
  with hfs'
have hwr' : (_fetchFile fs').writer = none := by
  rw [hfs', fetch_writeFile_writer]
have hrd' : (_fetchFile fs').readers = (_fetchFile fs).readers := by
  rw [hfs', fetch_writeFile_readers]
have horacle : ∀ p, raw p = none → isActiveW raw p = false := by
  intro p hp
  simp [isActiveW, hp]
cases type with
| read =>
  rw [check_of_status_open (statusFromFile_read_open hcw hwr')]
  exact ⟨rfl, hwr', horacle⟩
| write =>
  have hcls : (check h (isActiveW raw) fs' .write).1 = .open_ h.file := by
    apply (check_write_classify h (isActiveW raw) fs' hcw hwr'
      (fun r hr => Nat.pos_iff_ne_zero.mp (hpid r (hrd' ▸ hr)))).1
    intro r hr
    rw [hrd'] at hr
    rw [List.mem_filter] at hr
    rcases hblock r hr.1 with hmine | hdead'
    · exact hmine
    · rw [hr.2] at hdead'
      cases hdead'
  refine ⟨hcls, ?_, horacle⟩
  obtain ⟨sh1, -, -⟩ := check_shrink h (isActiveW raw) fs' .write
  rcases sh1 with h1 | h1
  · rw [h1, hwr']
  · exact h1

/-- Oracle: pid 7's liveness query fails, pid 3 is alive, all others dead. -/
def c3Raw : Nat → Option Bool :=
fun p => if p = 7 then none else if p = 3 then some true else some false

def c3Handle : HState :=
{ uuid := "h", pid := 3, file := "w.lock", countRead := 0, countWrite := 0 }

/-- A writer whose pid 7 makes the liveness oracle fail. -/
def c3Writer : Job := { uuid := "g", pid := 7, reason := none, created := 5 }

def c3Fs : FileState :=
some { version := version, writer := some c3Writer,
       readers := [{ uuid := "h", pid := 3, reason := none, created := 1 },
                   { uuid := "x", pid := 9, reason := none, created := 2 }] }

theorem c3_stale_writer_reclaim_witness :
    (check c3Handle (isActiveW c3Raw) c3Fs .write).1 = .open_ c3Handle.file ∧
    (_fetchFile (check c3Handle (isActiveW c3Raw) c3Fs .write).2).writer = none ∧
    isActiveW c3Raw 7 = false := by
have hmain := c3_stale_writer_reclaim c3Handle c3Raw c3Fs .write c3Writer rfl rfl (by decide)
  (by decide) (by decide) (by decide)
exact ⟨hmain.1, hmain.2.1, hmain.2.2 7 rfl⟩

/-- File-system errors visible to the record store. -/
inductive FsErr where
| ENOENT
deriving DecidableEq, Repr

/-- `fs.unlinkSync`: deleting an absent file raises ENOENT. -/
def unlinkSync : FileState → Except FsErr FileState
| none => .error .ENOENT
| some _ => .ok none

/-- The source's `writeFileSync`: an empty record deletes the file,
swallowing ENOENT (`if (err.code !== 'ENOENT') throw err`); otherwise the
record is written whole. -/
def writeFileSyncM (f : RWLockfileJSON) (fs : FileState) : Except FsErr FileState :=
if f.writer.isNone ∧ f.readers.isEmpty then
  match unlinkSync fs with
  | .error .ENOENT => .ok none
  | .ok fs' => .ok fs'
else .ok (some f)

/-- The record a fresh `_fetchFile` of an absent file yields. -/
def emptyRecord : RWLockfileJSON := { version := version, writer := none, readers := [] }

/-- C9: saving an empty record deletes the record file and tolerates an
already-absent file; loading an absent file yields the empty record; hence
an empty record round-trips to file absence, and save(load(p)) is a no-op —
verbatim at the file level whenever the stored file is not a (never-written)
explicit empty record, and always at the record level. -/
theorem c9_roundtrip (fs : FileState) :
    (writeFileSyncM emptyRecord fs = .ok none) ∧
    (writeFile emptyRecord = none) ∧
    (_fetchFile none = emptyRecord) ∧
    ((_fetchFile (writeFile (_fetchFile fs))).writer = (_fetchFile fs).writer ∧
      (_fetchFile (writeFile (_fetchFile fs))).readers = (_fetchFile fs).readers) ∧
    (fs = none → writeFile (_fetchFile fs) = fs) ∧
    (∀ f, fs = some f → ¬(f.writer.isNone = true ∧ f.readers.isEmpty = true) →
      writeFile (_fetchFile fs) = fs) := by
refine ⟨?_, rfl, rfl, ⟨fetch_writeFile_writer _, fetch_writeFile_readers _⟩, ?_, ?_⟩
· cases fs <;> rfl
· intro hfs
  subst hfs
  rfl
· intro f hfs hne
  subst hfs
  show writeFile f = some f
  rw [writeFile, if_neg hne]

/-- A nonempty stored record. -/
def c9Fs : FileState :=
some { version := version, writer := none,
       readers := [{ uuid := "r", pid := 6, reason := none, created := 0 }] }

theorem c9_roundtrip_witness :
    (writeFileSyncM emptyRecord none = .ok none) ∧
    (writeFile (_fetchFile c9Fs) = c9Fs) := by
constructor
· exact (c9_roundtrip none).1
· exact (c9_roundtrip c9Fs).2.2.2.2.2 _ rfl (by decide)

/-- C10: a `timeout: 0` or `retryInterval: 0` option — in the constructor or
per `add` call — is falsy in the `options.x || default` merges, so the
defaults (30000 ms, 10 ms) or the handle's values are used instead, and the
merged budget is 30000, not an exhausted one (a failure with budget 30000
retries rather than throwing, since throwing requires a strictly negative
budget). -/
theorem c10_zero_option_falls_back :
    (ctorTimeout (some 0) = 30000) ∧ (ctorTimeout none = 30000) ∧
    (ctorRetryInterval (some 0) = 10) ∧ (ctorRetryInterval none = 10) ∧
    (∀ hT : ℚ, _lockTimeout (some 0) hT = hT) ∧
    (∀ hR : ℚ, _lockRetryInterval (some 0) hR = hR) ∧
    (_lockTimeout (some 0) (ctorTimeout (some 0)) = 30000) ∧
    (_lockRetryInterval (some 0) (ctorRetryInterval (some 0)) = 10) ∧
    (0 : ℚ) ≤ _lockTimeout (some 0) (ctorTimeout (some 0)) := by
refine ⟨rfl, rfl, rfl, rfl, ?_, ?_, rfl, rfl,
  by rw [show _lockTimeout (some 0) (ctorTimeout (some 0)) = 30000 from rfl]; norm_num⟩
· intro hT
  simp [_lockTimeout, jsOrNum]
· intro hR
  simp [_lockRetryInterval, jsOrNum]

/-- Iterated `add('read')` calls by one handle (threading handle and file
state; an acquisition failure aborts the iteration with its status). -/
def addReadN (alive : Nat → Bool) (reason : Option String) (now : Nat) :
    Nat → HState × FileState → Except Status (HState × FileState)
| 0, st => .ok st
| n + 1, st =>
  match addReadN alive reason now n st with
  | .ok st' => add st'.1 alive st'.2 .read reason now
  | .error e => .error e

/-- Iterated `remove('read')` calls by one handle. -/
def removeReadN : Nat → HState × FileState → HState × FileState
| 0, st => st
| n + 1, st => remove (removeReadN n st).1 (removeReadN n st).2 .read

theorem statusFromFile_read_open' (h : HState) (f : RWLockfileJSON)
    (hw : f.writer = none) : _statusFromFile h .read f = .open_ h.file := by
by_cases hcw : h.countWrite = 0
· exact statusFromFile_read_open hcw hw
· exact statusFromFile_cw .read f hcw

/-- The 0→1 `add('read')` transition: one `tryLock`, one job appended, one
persist. -/
theorem add_read_first (h : HState) (alive : Nat → Bool) (fs : FileState)
    (reason : Option String) (now : Nat)
    (hcr : h.countRead = 0) (hwr : (_fetchFile fs).writer = none) :
    add h alive fs .read reason now =
      .ok ({ h with countRead := 1 },
        writeFile (addJob h .read reason now (_fetchFile fs))) := by
have hchk : check h alive fs .read = (.open_ h.file, fs) :=
  check_of_status_open (statusFromFile_read_open' h _ hwr)
have hcnt : h.count .read = 0 := hcr
rw [add, if_pos hcnt, tryLock, if_neg (not_not_intro hcnt)]
simp only [hchk]
have hb : h.bump .read = { h with countRead := 1 } := by
  simp [HState.bump, hcr]
show Except.ok (h.bump .read, writeFile (addJob h .read reason now (_fetchFile fs))) = _
rw [hb]

/-- A nested `add('read')` only bumps the counter and leaves the file
untouched. -/
theorem add_read_held (h : HState) (alive : Nat → Bool) (fs : FileState)
    (reason : Option String) (now : Nat) (hcr : h.countRead ≠ 0) :
    add h alive fs .read reason now = .ok (h.bump .read, fs) := by
have hcnt : h.count .read ≠ 0 := hcr
rw [add, if_neg hcnt]

/-- A nested `remove('read')` (counter at least 2) only decrements. -/
theorem remove_read_nested (h : HState) (fs : FileState) {k : Nat}
    (hcr : h.countRead = k + 2) :
    remove h fs .read = (h.dec .read, fs) := by
have hcnt : h.count .read = k + 2 := hcr
rw [remove]
rw [hcnt]

/-- The 1→0 `remove('read')` transition: the counter reaches 0 and the
handle's job is removed from the record and persisted. -/
theorem remove_read_last (h : HState) (fs : FileState) (hcr : h.countRead = 1) :
    remove h fs .read = (h.zero .read, _removeJob h fs .read) := by
have hcnt : h.count .read = 1 := hcr
rw [remove]
rw [hcnt]
rw [unlockT, if_neg (by rw [hcnt]; omega)]

/-- C4: from a state where the handle holds no read claim and no writer
blocks, `add('read')` N times then `remove('read')` N times performs exactly
one underlying grant — the first call appends one job and persists, every
later call only bumps the counter and leaves the file untouched — and
exactly one underlying release — the last remove deletes exactly that job
and restores the original readers, every earlier remove only decrements. -/
theorem c4_reentrancy (h : HState) (alive : Nat → Bool) (fs : FileState)
    (reason : Option String) (now : Nat) (N : Nat)
    (hN : 1 ≤ N)
    (hcr : h.countRead = 0)
    (hwr : (_fetchFile fs).writer = none)
    (hmine : ∀ r ∈ (_fetchFile fs).readers, r.uuid ≠ h.uuid) :
    (∀ k, 1 ≤ k → k ≤ N → addReadN alive reason now k (h, fs) =
      .ok ({ h with countRead := k },
        writeFile (addJob h .read reason now (_fetchFile fs)))) ∧
    (∀ k, k < N → removeReadN k ({ h with countRead := N },
        writeFile (addJob h .read reason now (_fetchFile fs))) =
      ({ h with countRead := N - k },
        writeFile (addJob h .read reason now (_fetchFile fs)))) ∧
    ((removeReadN N ({ h with countRead := N },
        writeFile (addJob h .read reason now (_fetchFile fs)))).1 =
      { h with countRead := 0 } ∧
      (_fetchFile (removeReadN N ({ h with countRead := N },
        writeFile (addJob h .read reason now (_fetchFile fs)))).2).readers =
        (_fetchFile fs).readers ∧
      (_fetchFile (removeReadN N ({ h with countRead := N },
        writeFile (addJob h .read reason now (_fetchFile fs)))).2).writer = none) := by
set grantFs := writeFile (addJob h .read reason now (_fetchFile fs)) with hgrant
have hadds : ∀ k, 1 ≤ k → addReadN alive reason now k (h, fs) =
    .ok ({ h with countRead := k }, grantFs) := by
  intro k
  induction k with
  | zero => intro hk; omega
  | succ n ih =>
    intro _
    by_cases hn : 1 ≤ n
    · have ihn := ih hn
      show (match addReadN alive reason now n (h, fs) with
        | .ok st' => add st'.1 alive st'.2 .read reason now
        | .error e => .error e) = _
      rw [ihn]
      show add { h with countRead := n } alive grantFs .read reason now = _
      rw [add_read_held _ alive grantFs reason now (by show n ≠ 0; omega)]
      show Except.ok (HState.bump { h with countRead := n } .read, grantFs) = _
      have hb : HState.bump { h with countRead := n } .read =
          { h with countRead := n + 1 } := by
        simp [HState.bump]
      rw [hb]
    · have hn0 : n = 0 := by omega
      subst hn0
      show (match addReadN alive reason now 0 (h, fs) with
        | .ok st' => add st'.1 alive st'.2 .read reason now
        | .error e => .error e) = _
      show add h alive fs .read reason now = _
      rw [add_read_first h alive fs reason now hcr hwr]
have hrems : ∀ k, k < N → removeReadN k ({ h with countRead := N }, grantFs) =
    ({ h with countRead := N - k }, grantFs) := by
  intro k
  induction k with
  | zero => intro _; rfl
  | succ n ih =>
    intro hk
    have ihn := ih (by omega)
    show remove (removeReadN n _).1 (removeReadN n _).2 .read = _
    rw [ihn]
    rw [remove_read_nested _ grantFs (show ({ h with countRead := N - n } : HState).countRead
      = (N - n - 2) + 2 by show N - n = N - n - 2 + 2; omega)]
    have hd : HState.dec { h with countRead := N - n } .read =
        { h with countRead := N - (n + 1) } := by
      have harith : N - n - 1 = N - (n + 1) := by omega
      simp [HState.dec, harith]
    rw [hd]
refine ⟨fun k hk _ => hadds k hk, hrems, ?_⟩
have hlast : removeReadN N ({ h with countRead := N }, grantFs) =
    (HState.zero { h with countRead := N - (N - 1) } .read,
      _removeJob { h with countRead := N - (N - 1) } grantFs .read) := by
  obtain ⟨M, hM⟩ : ∃ M, N = M + 1 := ⟨N - 1, by omega⟩
  subst hM
  show remove (removeReadN M ({ h with countRead := M + 1 }, grantFs)).1
    (removeReadN M ({ h with countRead := M + 1 }, grantFs)).2 .read = _
  rw [hrems M (by omega)]
  rw [remove_read_last _ grantFs (show ({ h with countRead := M + 1 - M } : HState).countRead
    = 1 by show M + 1 - M = 1; omega)]
  have hMM : M + 1 - M = M + 1 - (M + 1 - 1) := by omega
  rw [hMM]
rw [hlast]
have hzero : HState.zero { h with countRead := N - (N - 1) } .read =
    { h with countRead := 0 } := by
  simp [HState.zero]
refine ⟨by rw [hzero], ?_, ?_⟩
· show (_fetchFile (_removeJob { h with countRead := N - (N - 1) } grantFs .read)).readers = _
  unfold _removeJob
  rw [fetch_writeFile_readers]
  show ((_fetchFile grantFs).readers.filter _) = _
  rw [hgrant, fetch_writeFile_readers]
  show ((addJob h .read reason now (_fetchFile fs)).readers.filter _) = _
  show (((_fetchFile fs).readers ++
    ([{ reason := reason, pid := h.pid, created := now, uuid := h.uuid }] : List Job)).filter _) = _
  rw [List.filter_append]
  have h1 : ((_fetchFile fs).readers.filter
      (fun r => r.uuid ≠ ({ h with countRead := N - (N - 1) } : HState).uuid)) =
      (_fetchFile fs).readers := by
    rw [List.filter_eq_self]
    intro r hr
    simpa using hmine r hr
  have h2 : ([{ reason := reason, pid := h.pid, created := now, uuid := h.uuid }].filter
      (fun r => r.uuid ≠ ({ h with countRead := N - (N - 1) } : HState).uuid) :
        List Job) = [] := by
    simp
  rw [h1, h2, List.append_nil]
· show (_fetchFile (_removeJob { h with countRead := N - (N - 1) } grantFs .read)).writer = _
  unfold _removeJob
  rw [fetch_writeFile_writer]
  show (_fetchFile grantFs).writer = _
  rw [hgrant, fetch_writeFile_writer]
  exact hwr

def c4Handle : HState :=
{ uuid := "c", pid := 11, file := "r.lock", countRead := 0, countWrite := 0 }

theorem c4_reentrancy_witness :
    (addReadN (fun _ => true) none 0 3 (c4Handle, (none : FileState)) =
      .ok ({ c4Handle with countRead := 3 },
        writeFile (addJob c4Handle .read none 0 (_fetchFile none)))) ∧
    ((removeReadN 3 ({ c4Handle with countRead := 3 },
        writeFile (addJob c4Handle .read none 0 (_fetchFile none)))).1 =
      { c4Handle with countRead := 0 }) := by
have hmain := c4_reentrancy c4Handle (fun _ => true) (none : FileState) none 0 3
  (by decide) rfl rfl (by intro r hr; cases hr)
exact ⟨hmain.1 3 (by decide) (by decide), hmain.2.2.1⟩

/-- A successful `tryLock` attempt exits the loop with the accumulated hook
and sleep bookkeeping. -/
theorem lockLoop_success {attempt : Nat → Option Status} {rand : Nat → ℚ}
    {fuel n : Nat} {timeout retryInterval : ℚ} {hookRan : Bool} {hookCount : Nat}
    {hookAt : Option Nat} {sleeps : List Int} (hok : attempt n = none) :
    _lockLoop attempt rand (fuel + 1) n timeout retryInterval hookRan hookCount hookAt sleeps =
      some { ok := true, err := none, failures := n, hookCount := hookCount,
             hookAt := hookAt, sleeps := sleeps } := by
simp only [_lockLoop, hok]

/-- A failed attempt with exhausted budget (strictly negative) rethrows the
failure after invoking the once-wrapped hook. -/
theorem lockLoop_fail_throw {attempt : Nat → Option Status} {rand : Nat → ℚ}
    {fuel n : Nat} {timeout retryInterval : ℚ} {hookRan : Bool} {hookCount : Nat}
    {hookAt : Option Nat} {sleeps : List Int} {st : Status}
    (hfail : attempt n = some st) (hneg : timeout < 0) :
    _lockLoop attempt rand (fuel + 1) n timeout retryInterval hookRan hookCount hookAt sleeps =
      some { ok := false, err := some st, failures := n + 1,
             hookCount := if hookRan then hookCount else hookCount + 1,
             hookAt := if hookRan then hookAt else some n, sleeps := sleeps } := by
simp only [_lockLoop, hfail]
rw [if_pos hneg]

/-- A failed attempt with remaining budget sleeps the jittered interval,
deducts it, doubles the retry interval and loops. -/
theorem lockLoop_fail_retry {attempt : Nat → Option Status} {rand : Nat → ℚ}
    {fuel n : Nat} {timeout retryInterval : ℚ} {hookRan : Bool} {hookCount : Nat}
    {hookAt : Option Nat} {sleeps : List Int} {st : Status}
    (hfail : attempt n = some st) (hpos : ¬ timeout < 0) :
    _lockLoop attempt rand (fuel + 1) n timeout retryInterval hookRan hookCount hookAt sleeps =
      _lockLoop attempt rand fuel (n + 1)
        (timeout - jsRandom (retryInterval / 2) (retryInterval * 2) (rand n))
        (retryInterval * 2) true
        (if hookRan then hookCount else hookCount + 1)
        (if hookRan then hookAt else some n)
        (sleeps ++ [jsRandom (retryInterval / 2) (retryInterval * 2) (rand n)]) := by
simp only [_lockLoop, hfail]
rw [if_neg hpos]

/-- C6 (amended): after a failed attempt the loop throws the last failure
when the remaining budget is strictly negative (hence a negative initial
timeout fails after exactly one attempt with no retry and no sleep);
otherwise it sleeps `Math.floor(u * (2r - r/2) + r/2)` for `u = Math.random()`
— an integer interval strictly between `r/2 - 1` and `2r`, not always within
the claimed closed interval `[r/2, 2r]` — subtracts the slept interval from
the budget, doubles `retryInterval` and retries. -/
theorem c6_backoff_loop (attempt : Nat → Option Status) (rand : Nat → ℚ)
    (fuel n : Nat) (timeout retryInterval : ℚ) (hookRan : Bool) (hookCount : Nat)
    (hookAt : Option Nat) (sleeps : List Int) (st : Status)
    (hfail : attempt n = some st) :
    (timeout < 0 →
      _lockLoop attempt rand (fuel + 1) n timeout retryInterval hookRan hookCount hookAt sleeps =
        some { ok := false, err := some st, failures := n + 1,
               hookCount := if hookRan then hookCount else hookCount + 1,
               hookAt := if hookRan then hookAt else some n, sleeps := sleeps }) ∧
    (¬ timeout < 0 →
      _lockLoop attempt rand (fuel + 1) n timeout retryInterval hookRan hookCount hookAt sleeps =
        _lockLoop attempt rand fuel (n + 1)
          (timeout - jsRandom (retryInterval / 2) (retryInterval * 2) (rand n))
          (retryInterval * 2) true
          (if hookRan then hookCount else hookCount + 1)
          (if hookRan then hookAt else some n)
          (sleeps ++ [jsRandom (retryInterval / 2) (retryInterval * 2) (rand n)])) ∧
    (0 ≤ rand n → rand n < 1 → 0 < retryInterval →
      retryInterval / 2 - 1 <
        (jsRandom (retryInterval / 2) (retryInterval * 2) (rand n) : ℚ) ∧
      (jsRandom (retryInterval / 2) (retryInterval * 2) (rand n) : ℚ) < retryInterval * 2) ∧
    (timeout < 0 →
      _lockLoop attempt rand (fuel + 1) n timeout retryInterval false 0 none [] =
        some { ok := false, err := some st, failures := n + 1, hookCount := 1,
               hookAt := some n, sleeps := [] }) := by
refine ⟨fun hneg => lockLoop_fail_throw hfail hneg,
  fun hpos => lockLoop_fail_retry hfail hpos, ?_, fun hneg => lockLoop_fail_throw hfail hneg⟩
intro hr0 hr1 hrp
obtain ⟨x, hx⟩ : ∃ x : ℚ,
    x = rand n * (retryInterval * 2 - retryInterval / 2) + retryInterval / 2 := ⟨_, rfl⟩
have hspan : (0 : ℚ) ≤ retryInterval * 2 - retryInterval / 2 := by linarith
have hxlow : retryInterval / 2 ≤ x := by
  have := mul_nonneg hr0 hspan
  rw [hx]
  linarith
have hxhigh : x < retryInterval * 2 := by
  have hmul : rand n * (retryInterval * 2 - retryInterval / 2) <
      1 * (retryInterval * 2 - retryInterval / 2) := by
    apply mul_lt_mul_of_pos_right hr1
    linarith
  rw [hx]
  linarith
have hjseq : jsRandom (retryInterval / 2) (retryInterval * 2) (rand n) = ⌊x⌋ := by
  rw [hx]
  rfl
rw [hjseq]
constructor
· have hfl : x - 1 < (⌊x⌋ : ℚ) := Int.sub_one_lt_floor x
  linarith
· have hfl : (⌊x⌋ : ℚ) ≤ x := Int.floor_le x
  linarith

/-- The fixed blocking status used in the loop fixtures. -/
def c6Status : Status := .read_lock [] "c.lock"

/-- Attempt 0 fails, every later attempt succeeds. -/
def c6Attempt : Nat → Option Status := fun k => if k = 0 then some c6Status else none

/-- A `Math.random()` stream that always draws 0 (the lowest jitter). -/
def c6Rand : Nat → ℚ := fun _ => 0

/-- C6, as stated, is false in its interval clause: with
`retryInterval = 5` and a `Math.random()` draw of 0 the code sleeps
`Math.floor(0 * (10 - 2.5) + 2.5) = 2` milliseconds, and 2 lies outside the
claimed interval `[retryInterval/2, retryInterval*2] = [2.5, 10]`; the loop
run below indeed records that slept interval. -/
theorem c6_counterexample :
    jsRandom ((5 : ℚ) / 2) (5 * 2) 0 = 2 ∧
    ((2 : Int) : ℚ) < (5 : ℚ) / 2 ∧
    _lockLoop c6Attempt c6Rand 2 0 100 5 false 0 none [] =
      some { ok := true, err := none, failures := 1, hookCount := 1,
             hookAt := some 0, sleeps := [2] } := by
have hjs : jsRandom ((5 : ℚ) / 2) (5 * 2) 0 = 2 := by
  rw [jsRandom]
  norm_num
refine ⟨hjs, by norm_num, ?_⟩
rw [lockLoop_fail_retry (show c6Attempt 0 = some c6Status from rfl) (by norm_num)]
rw [show c6Rand 0 = 0 from rfl, hjs]
rw [lockLoop_success (show c6Attempt 1 = none from rfl)]
simp

theorem c6_backoff_loop_witness :
    (_lockLoop c6Attempt c6Rand 5 0 (-1) 10 false 0 none [] =
      some { ok := false, err := some c6Status, failures := 1, hookCount := 1,
             hookAt := some 0, sleeps := [] }) ∧
    ((10 : ℚ) / 2 - 1 < (jsRandom ((10 : ℚ) / 2) (10 * 2) (c6Rand 0) : ℚ) ∧
      (jsRandom ((10 : ℚ) / 2) (10 * 2) (c6Rand 0) : ℚ) < 10 * 2) := by
have hmain := c6_backoff_loop c6Attempt c6Rand 4 0 (-1) 10 false 0 none [] c6Status rfl
exact ⟨hmain.2.2.2 (by norm_num),
  hmain.2.2.1 (by norm_num [c6Rand]) (by norm_num [c6Rand]) (by norm_num)⟩

/-- After the once-wrapper has fired, the hook bookkeeping never changes
again, no matter how many more retries run. -/
theorem lockLoop_hook_stable (attempt : Nat → Option Status) (rand : Nat → ℚ) :
    ∀ (fuel n : Nat) (timeout retryInterval : ℚ) (hookCount : Nat)
      (hookAt : Option Nat) (sleeps : List Int) (out : LockOutcome),
      _lockLoop attempt rand fuel n timeout retryInterval true hookCount hookAt sleeps =
        some out →
      out.hookCount = hookCount ∧ out.hookAt = hookAt := by
intro fuel
induction fuel with
| zero =>
  intro n timeout retryInterval hookCount hookAt sleeps out hrun
  cases hrun
| succ fuel ih =>
  intro n timeout retryInterval hookCount hookAt sleeps out hrun
  rcases hatt : attempt n with _ | st
  · rw [lockLoop_success hatt] at hrun
    cases hrun
    exact ⟨rfl, rfl⟩
  · by_cases hneg : timeout < 0
    · rw [lockLoop_fail_throw hatt hneg] at hrun
      cases hrun
      exact ⟨rfl, rfl⟩
    · rw [lockLoop_fail_retry hatt hneg] at hrun
      exact ih _ _ _ _ _ _ _ hrun

/-- One fresh run of the loop: either the first attempt succeeds and the hook
never runs, or it fails, the hook runs exactly there, and no later retry runs
it again. -/
theorem lockLoop_hook_fresh (attempt : Nat → Option Status) (rand : Nat → ℚ)
    (fuel n : Nat) (timeout retryInterval : ℚ) (hookCount : Nat)
    (hookAt : Option Nat) (sleeps : List Int) (out : LockOutcome)
    (hrun : _lockLoop attempt rand fuel n timeout retryInterval false hookCount hookAt sleeps =
      some out) :
    (attempt n = none → out.hookCount = hookCount ∧ out.hookAt = hookAt) ∧
    (attempt n ≠ none → out.hookCount = hookCount + 1 ∧ out.hookAt = some n) := by
match fuel with
| 0 => cases hrun
| fuel + 1 =>
  constructor
  · intro hatt
    rw [lockLoop_success hatt] at hrun
    cases hrun
    exact ⟨rfl, rfl⟩
  · intro hatt
    rcases hatt2 : attempt n with _ | st
    · exact absurd hatt2 hatt
    · by_cases hneg : timeout < 0
      · rw [lockLoop_fail_throw hatt2 hneg] at hrun
        cases hrun
        exact ⟨rfl, rfl⟩
      · rw [lockLoop_fail_retry hatt2 hneg] at hrun
        exact lockLoop_hook_stable attempt rand _ _ _ _ _ _ _ _ hrun

/-- C7: across one whole `_lock` acquisition loop the caller's blocked hook
(`ifLocked`/`onBlocked`, once-wrapped) runs exactly once — at the first failed
attempt — and never again on later retries; if the first attempt succeeds it
never runs at all. -/
theorem c7_hook_fires_once (ctorT ctorR callT callR : Option ℚ)
    (attempt : Nat → Option Status) (rand : Nat → ℚ) (fuel : Nat) (out : LockOutcome)
    (hrun : _lock ctorT ctorR callT callR attempt rand fuel = some out) :
    (attempt 0 = none → out.hookCount = 0 ∧ out.hookAt = none) ∧
    (attempt 0 ≠ none → out.hookCount = 1 ∧ out.hookAt = some 0) :=
lockLoop_hook_fresh attempt rand fuel 0 _ _ 0 none [] out hrun

/-- Attempts 0 and 1 fail, attempt 2 succeeds. -/
def c7Attempt : Nat → Option Status := fun k => if k < 2 then some c6Status else none

theorem c7_hook_fires_once_witness :
    ∃ out, _lock none none (some 100) (some 4) c7Attempt (fun _ => 0) 10 = some out ∧
      out.hookCount = 1 ∧ out.hookAt = some 0 := by
have hout : _lock none none (some 100) (some 4) c7Attempt (fun _ => 0) 10 =
    some { ok := true, err := none, failures := 2, hookCount := 1, hookAt := some 0,
           sleeps := [jsRandom (4 / 2) (4 * 2) 0, jsRandom (8 / 2) (8 * 2) 0] } := by
  show _lockLoop c7Attempt (fun _ => 0) 10 0 (_lockTimeout (some 100) (ctorTimeout none))
    (_lockRetryInterval (some 4) (ctorRetryInterval none)) false 0 none [] = _
  rw [show _lockTimeout (some 100) (ctorTimeout none) = 100 by norm_num [_lockTimeout, jsOrNum]]
  rw [show _lockRetryInterval (some 4) (ctorRetryInterval none) = 4 by
    norm_num [_lockRetryInterval, jsOrNum]]
  rw [lockLoop_fail_retry (show c7Attempt 0 = some c6Status from rfl) (by norm_num)]
  rw [show (4 : ℚ) * 2 = 8 by norm_num]
  rw [lockLoop_fail_retry (show c7Attempt 1 = some c6Status from rfl) ?hb]
  case hb =>
    have h1 : jsRandom ((4 : ℚ) / 2) 8 0 = 2 := by
      rw [jsRandom]
      norm_num
    rw [h1]
    norm_num
  rw [show (8 : ℚ) * 2 = 16 by norm_num]
  rw [lockLoop_success (show c7Attempt 2 = none from rfl)]
  norm_num
refine ⟨_, hout, ?_⟩
exact ((c7_hook_fires_once none none (some 100) (some 4) c7Attempt (fun _ => 0) 10 _ hout).2
  (by rw [show c7Attempt 0 = some c6Status from rfl]; intro hc; cases hc))

end Rwlockfile
